import Mathlib

set_option maxRecDepth 4000

/-!
Shallow embedding of the `excel-exporter` Go package (`src/exporter.go`,
`src/row.go`) and proofs about it.

Modelling conventions:
* A Go slice is `Option (List _)` where `none` models a nil slice and
  `some l` a non-nil slice with elements `l`, whenever nil-ness is
  observable (it is for `Row.Cells`: the exporter tests `row.Cells == nil`).
  For slices that are only ranged over (`MergeCells`, `RowOpts`) a plain
  `List` suffices.
* Opaque `interface{}` cell values and formula/coordinate strings are
  `String`; style handles are `Nat` (`0` = no style, as in the source).
* The external sink (`excelize.File` / `excelize.StreamWriter`) is opaque:
  each primitive call the exporter makes is a `SinkOp`; an `Oracle` decides
  whether the sink accepts the call (`none`) or rejects it with an error
  message (`some e`).  The sequence of accepted calls is recorded in a
  trace, and the parts of the sink state the exporter itself reads back
  (the sheet list, for `SheetCount`/`DeleteSheet`) are kept explicitly.
* A `RowDataFunc` producer is modelled by the list of its successive
  return values (`pulls`); the export loop consumes them in order.
-/

/-- Maximum number of rows per sheet (`SheetMaxRows` in `exporter.go`). -/
def SheetMaxRows : Nat := 1048576

/-- A cell, as the exporter reads it: a value, a style handle and a
formula (`excelize.Cell`). -/
structure Cell where
  Value : String
  StyleID : Nat
  Formula : String
deriving DecidableEq

/-- A merged-cell region (`MergeCell` in `row.go`). -/
structure MergeCell where
  TopLeftCell : String
  BottomRightCell : String
deriving DecidableEq

/-- Row-level layout options (`excelize.RowOpts`), opaque pass-through. -/
structure RowOpt where
  tag : Nat
deriving DecidableEq

/-- A row of data (`Row` in `exporter.go`).  `Cells = none` models a Go
nil `Cells` slice: this is the end-of-stream sentinel tested by
`row.Cells == nil`; `Cells = some []` models an empty but non-nil slice. -/
structure Row where
  Cells : Option (List Cell)
  MergeCells : List MergeCell
  RowOpts : List RowOpt
deriving DecidableEq

/-- The sentinel value `Row{}`: zero value, whose `Cells` slice is nil. -/
def sentinelRow : Row := ⟨none, [], []⟩

/-- `NewRow` from `row.go`: one valueless-style cell per given value.
`make` always yields a non-nil slice, so `Cells` is `some _` even for an
empty argument list. -/
def NewRow (cellValues : List String) : Row :=
  { Cells := some (cellValues.map fun v => { Value := v, StyleID := 0, Formula := "" })
    MergeCells := []
    RowOpts := [] }

/-- One primitive call into the external sink. Coordinates are recorded as
(column, row) pairs; `excelize.CoordinatesToCellName` is a fixed bijection
so nothing is lost. -/
inductive SinkOp where
  | newSheet (name : String)
  | deleteSheet (name : String)
  | newStreamWriter (name : String)
  | setRow (sheet : String) (rowID : Nat) (cells : List Cell) (opts : List RowOpt)
  | mergeCellStream (sheet tl br : String)
  | mergeCellMem (sheet tl br : String)
  | setCellValue (sheet : String) (col row : Nat) (v : String)
  | setCellStyle (sheet : String) (col row : Nat) (styleID : Nat)
  | setCellFormula (sheet : String) (col row : Nat) (f : String)
  | flush (sheet : String)
  | saveAs (fileName : String)
deriving DecidableEq

/-- The sink's accept/reject behaviour: `none` = accepted,
`some e` = rejected with error `e`. -/
def Oracle : Type := SinkOp → Option String

/-- A sink that accepts every operation. -/
def perfectSink : Oracle := fun _ => none

/-- Ghost record of one invocation of a per-row write function:
the loop's `sheetSuffix`, the sheet name passed, the row index passed,
and the row. -/
structure WriteCall where
  suffix : Nat
  sheet : String
  rowID : Nat
  row : Row
deriving DecidableEq

/-- The exporter-side state: the document's sheet list (what
`SheetCount` / `DeleteSheet` see), the trace of accepted sink calls, the
ghost log of write invocations, `e.CurrentSheet`, and the sheet the
current `e.StreamWriter` is bound to (`none` = nil stream writer). -/
structure ExpoState where
  file : List String
  trace : List SinkOp
  writes : List WriteCall
  currentSheet : String
  streamSheet : Option String
deriving DecidableEq

/-- Sheet-list effect of an accepted sink call: `NewSheet` adds a missing
name, `DeleteSheet` removes it. -/
def updFile (op : SinkOp) (file : List String) : List String :=
  match op with
  | SinkOp.newSheet n => if n ∈ file then file else file ++ [n]
  | SinkOp.deleteSheet n => file.erase n
  | _ => file

/-- Stream-writer binding effect of an accepted sink call. -/
def updStream (op : SinkOp) (ss : Option String) : Option String :=
  match op with
  | SinkOp.newStreamWriter n => some n
  | _ => ss

/-- Run one sink call: the oracle either rejects it (state unchanged,
error returned) or accepts it (call recorded, document state updated). -/
def perform (o : Oracle) (op : SinkOp) (st : ExpoState) : ExpoState × Option String :=
  match o op with
  | some e => (st, some e)
  | none =>
    ({ st with
        file := updFile op st.file
        streamSheet := updStream op st.streamSheet
        trace := st.trace ++ [op] }, none)

/-- Result of an export: success, an error, or `hang` when the modelled
producer ran out of pulls without ever returning the sentinel (the Go
loop would block forever). -/
inductive ExpoResult where
  | ok
  | err (e : String)
  | hang
deriving DecidableEq

/-- Decimal digits of a natural number, most significant first
(the rendering `fmt.Sprintf("%d", n)` uses). -/
def decDigits (n : Nat) : List Char :=
  if n < 10 then [Nat.digitChar n]
  else decDigits (n / 10) ++ [Nat.digitChar (n % 10)]
decreasing_by exact Nat.div_lt_self (by omega) (by omega)

/-- Decimal string of a natural number (Go `%d`). -/
def natDecStr (n : Nat) : String := String.mk (decDigits n)

/-- Name of the `k`-th physical sheet of a definition with base name
`base`: `base` itself for `k = 0`, `fmt.Sprintf("%s_%d", base, k)` for
overflow sheet `k ≥ 1`. -/
def physName (base : String) : Nat → String
  | 0 => base
  | k + 1 => base ++ "_" ++ natDecStr (k + 1)

/-- A sheet definition (`SheetData`): name plus producer, the producer
modelled by its successive return values. -/
structure SheetData where
  Name : String
  pulls : List Row
deriving DecidableEq

/-- The in-memory variant's `initFunc`: does nothing. -/
def memInit (_name : String) (st : ExpoState) : ExpoState × Option String := (st, none)

/-- Cell-writing loop of the in-memory `writeRowFunc`: for the `j`-th cell
set its value, then its style when `StyleID > 0`, then its formula when
non-empty, aborting on the first rejected call. -/
def memCellLoop (o : Oracle) (sheetName : String) (rowID : Nat) :
    Nat → List Cell → ExpoState → ExpoState × Option String
  | _, [], st => (st, none)
  | j, cell :: cells, st =>
    match perform o (SinkOp.setCellValue sheetName (j + 1) rowID cell.Value) st with
    | (st1, some e) => (st1, some e)
    | (st1, none) =>
      match (if cell.StyleID > 0 then
               perform o (SinkOp.setCellStyle sheetName (j + 1) rowID cell.StyleID) st1
             else (st1, none)) with
      | (st2, some e) => (st2, some e)
      | (st2, none) =>
        match (if cell.Formula ≠ "" then
                 perform o (SinkOp.setCellFormula sheetName (j + 1) rowID cell.Formula) st2
               else (st2, none)) with
        | (st3, some e) => (st3, some e)
        | (st3, none) => memCellLoop o sheetName rowID (j + 1) cells st3

/-- Merge loop of the in-memory `writeRowFunc`:
`e.File.MergeCell(sheetName, tl, br)` per merge region. -/
def memMergeLoop (o : Oracle) (sheetName : String) :
    List MergeCell → ExpoState → ExpoState × Option String
  | [], st => (st, none)
  | mc :: mcs, st =>
    match perform o (SinkOp.mergeCellMem sheetName mc.TopLeftCell mc.BottomRightCell) st with
    | (st1, some e) => (st1, some e)
    | (st1, none) => memMergeLoop o sheetName mcs st1

/-- The in-memory variant's `writeRowFunc` (`exportUsingMemory`): write
each cell, then each merge region. -/
def memWrite (o : Oracle) (sheetName : String) (rowID : Nat) (row : Row)
    (st : ExpoState) : ExpoState × Option String :=
  match memCellLoop o sheetName rowID 0 (row.Cells.getD []) st with
  | (st1, some e) => (st1, some e)
  | (st1, none) => memMergeLoop o sheetName row.MergeCells st1

/-- The streaming variant's `initFunc`:
`e.StreamWriter, err = e.File.NewStreamWriter(sheetName)`. -/
def strInit (o : Oracle) (name : String) (st : ExpoState) : ExpoState × Option String :=
  perform o (SinkOp.newStreamWriter name) st

/-- Merge loop of the streaming `writeRowFunc`:
`e.StreamWriter.MergeCell(tl, br)` on the stream writer's sheet. -/
def strMergeLoop (o : Oracle) :
    List MergeCell → ExpoState → ExpoState × Option String
  | [], st => (st, none)
  | mc :: mcs, st =>
    match perform o (SinkOp.mergeCellStream (st.streamSheet.getD "") mc.TopLeftCell mc.BottomRightCell) st with
    | (st1, some e) => (st1, some e)
    | (st1, none) => strMergeLoop o mcs st1

/-- The streaming variant's `writeRowFunc` (`exportUsingStreamWriter`):
one `SetRow` at column A of row `rowID` on the stream writer's sheet
(the `sheetName` argument is unused, as in the source), then the merges. -/
def strWrite (o : Oracle) (_sheetName : String) (rowID : Nat) (row : Row)
    (st : ExpoState) : ExpoState × Option String :=
  match perform o (SinkOp.setRow (st.streamSheet.getD "") rowID (row.Cells.getD []) row.RowOpts) st with
  | (st1, some e) => (st1, some e)
  | (st1, none) => strMergeLoop o row.MergeCells st1

/-- The row-pulling loop of `exportHelper`.  Each iteration pulls the next
row; a nil `Cells` slice breaks the loop; `rowID > SheetMaxRows` first
creates and initializes the next overflow sheet `{base}_{suffix}` and
resets the cursor; then the row is written (the write invocation is also
recorded in the ghost `writes` log) and the cursor advances.  An exhausted
pull list means the producer never returned the sentinel: `hang`. -/
def exportHelperLoop (o : Oracle)
    (initF : String → ExpoState → ExpoState × Option String)
    (writeF : String → Nat → Row → ExpoState → ExpoState × Option String)
    (baseName : String) :
    List Row → Nat → Nat → ExpoState → ExpoState × ExpoResult
  | [], _, _, st => (st, ExpoResult.hang)
  | row :: pulls, rowID, sheetSuffix, st =>
    if row.Cells = none then
      (st, ExpoResult.ok)
    else if rowID > SheetMaxRows then
      let name := baseName ++ "_" ++ natDecStr (sheetSuffix + 1)
      match perform o (SinkOp.newSheet name) st with
      | (st1, some e) => (st1, ExpoResult.err ("failed to create a new sheet: " ++ e))
      | (st1, none) =>
        let st2 := { st1 with currentSheet := name }
        match initF name st2 with
        | (st3, some e) => (st3, ExpoResult.err e)
        | (st3, none) =>
          let st4 := { st3 with
            writes := st3.writes ++ [⟨sheetSuffix + 1, st3.currentSheet, 1, row⟩] }
          match writeF st4.currentSheet 1 row st4 with
          | (st5, some e) => (st5, ExpoResult.err e)
          | (st5, none) =>
            exportHelperLoop o initF writeF baseName pulls 2 (sheetSuffix + 1) st5
    else
      let st4 := { st with
        writes := st.writes ++ [⟨sheetSuffix, st.currentSheet, rowID, row⟩] }
      match writeF st4.currentSheet rowID row st4 with
      | (st5, some e) => (st5, ExpoResult.err e)
      | (st5, none) =>
        exportHelperLoop o initF writeF baseName pulls (rowID + 1) sheetSuffix st5

/-- `exportHelper`: set `e.CurrentSheet` to the definition's name, run
`initFunc`, then the row loop starting at `rowID = 1`, `sheetSuffix = 0`. -/
def exportHelper (o : Oracle)
    (initF : String → ExpoState → ExpoState × Option String)
    (writeF : String → Nat → Row → ExpoState → ExpoState × Option String)
    (sheet : SheetData) (st : ExpoState) : ExpoState × ExpoResult :=
  let st1 := { st with currentSheet := sheet.Name }
  match initF sheet.Name st1 with
  | (st2, some e) => (st2, ExpoResult.err e)
  | (st2, none) => exportHelperLoop o initF writeF sheet.Name sheet.pulls 1 0 st2

/-- `exportUsingMemory`. -/
def exportUsingMemory (o : Oracle) (sheet : SheetData) (st : ExpoState) :
    ExpoState × ExpoResult :=
  exportHelper o memInit (memWrite o) sheet st

/-- `exportUsingStreamWriter`: the helper, then — only on success —
`e.StreamWriter.Flush()` on the stream writer left current by the helper. -/
def exportUsingStreamWriter (o : Oracle) (sheet : SheetData) (st : ExpoState) :
    ExpoState × ExpoResult :=
  match exportHelper o (strInit o) (strWrite o) sheet st with
  | (st1, ExpoResult.ok) =>
    match perform o (SinkOp.flush (st1.streamSheet.getD "")) st1 with
    | (st2, some e) => (st2, ExpoResult.err e)
    | (st2, none) => (st2, ExpoResult.ok)
  | r => r

/-- Variant dispatch on `e.UseStreamWriter`, as in `Export`'s loop body. -/
def exportSheetDef (o : Oracle) (useStream : Bool) (sheet : SheetData)
    (st : ExpoState) : ExpoState × ExpoResult :=
  if useStream then exportUsingStreamWriter o sheet st
  else exportUsingMemory o sheet st

/-- The body of `Export`: per definition, `NewSheet` (error wrapped as in
the source), then — only at index 0 and when more than one sheet exists —
delete the default sheet `"Sheet1"`, then the variant export; after all
definitions, `SaveAs` (error returned unwrapped). -/
def ExportLoop (o : Oracle) (fileName : String) (useStream : Bool) :
    List SheetData → Nat → ExpoState → ExpoState × ExpoResult
  | [], _, st =>
    match perform o (SinkOp.saveAs fileName) st with
    | (st1, some e) => (st1, ExpoResult.err e)
    | (st1, none) => (st1, ExpoResult.ok)
  | sheet :: rest, i, st =>
    match perform o (SinkOp.newSheet sheet.Name) st with
    | (st1, some e) => (st1, ExpoResult.err ("failed to create a new sheet: " ++ e))
    | (st1, none) =>
      match (if i = 0 ∧ st1.file.length > 1 then
               match perform o (SinkOp.deleteSheet "Sheet1") st1 with
               | (st2, some e) => (st2, some ("failed to delete default sheet: " ++ e))
               | (st2, none) => (st2, none)
             else (st1, none)) with
      | (st2, some e) => (st2, ExpoResult.err e)
      | (st2, none) =>
        match exportSheetDef o useStream sheet st2 with
        | (st3, ExpoResult.ok) => ExportLoop o fileName useStream rest (i + 1) st3
        | r => r

/-- Fresh exporter state: `excelize.NewFile()` starts with the single
default sheet `"Sheet1"`, no trace, no stream writer. -/
def initState : ExpoState :=
  { file := ["Sheet1"], trace := [], writes := [], currentSheet := "", streamSheet := none }

/-- `Export`: run the per-definition loop from a fresh file. -/
def Export (o : Oracle) (fileName : String) (useStream : Bool)
    (sheets : List SheetData) : ExpoState × ExpoResult :=
  ExportLoop o fileName useStream sheets 0 initState

/-- State of the `UseRowChan` adapter: whether the `sync.Once` has fired,
and the rows still buffered in the channel (the background task's sends,
in order; an empty buffer after start models the closed channel). -/
structure ChanState where
  started : Bool
  buffer : List Row
deriving DecidableEq

/-- Adapter state before any pull: task not started. -/
def chanInit : ChanState := ⟨false, []⟩

/-- One pull of the `RowDataFunc` returned by `UseRowChan`: on the first
pull the background task is started (its sends `sendData` become the
channel content); then the next row is received, or the zero `Row{}` when
the channel is closed. -/
def chanPull (sendData : List Row) (c : ChanState) : Row × ChanState :=
  let c1 := if c.started then c else ⟨true, sendData⟩
  match c1.buffer with
  | [] => (sentinelRow, c1)
  | r :: rest => (r, ⟨c1.started, rest⟩)

/-- `n` successive pulls from the adapter, collecting the returned rows. -/
def chanPulls (sendData : List Row) : Nat → ChanState → List Row × ChanState
  | 0, c => ([], c)
  | n + 1, c =>
    let p := chanPull sendData c
    let q := chanPulls sendData n p.2
    (p.1 :: q.1, q.2)

/-! ## Closed forms for runs against an accepting sink -/

/-- Sink calls of the in-memory `writeRowFunc` for the cells from column
`j + 1` on, in source order. -/
def cellOpsMem (sheetName : String) (rowID : Nat) : Nat → List Cell → List SinkOp
  | _, [] => []
  | j, cell :: cells =>
    SinkOp.setCellValue sheetName (j + 1) rowID cell.Value ::
      ((if cell.StyleID > 0 then [SinkOp.setCellStyle sheetName (j + 1) rowID cell.StyleID] else []) ++
       (if cell.Formula ≠ "" then [SinkOp.setCellFormula sheetName (j + 1) rowID cell.Formula] else []) ++
       cellOpsMem sheetName rowID (j + 1) cells)

/-- All sink calls of the in-memory `writeRowFunc` for one row. -/
def rowOpsMem (sheetName : String) (rowID : Nat) (row : Row) : List SinkOp :=
  cellOpsMem sheetName rowID 0 (row.Cells.getD []) ++
    row.MergeCells.map (fun mc => SinkOp.mergeCellMem sheetName mc.TopLeftCell mc.BottomRightCell)

/-- All sink calls of the streaming `writeRowFunc` for one row. -/
def rowOpsStr (sheetName : String) (rowID : Nat) (row : Row) : List SinkOp :=
  SinkOp.setRow sheetName rowID (row.Cells.getD []) row.RowOpts ::
    row.MergeCells.map (fun mc => SinkOp.mergeCellStream sheetName mc.TopLeftCell mc.BottomRightCell)

/-- Sink calls a run of the helper loop performs on an accepting sink,
parameterized by the variant's per-row calls and per-init calls. -/
def helperOpsRS (rowOps : String → Nat → Row → List SinkOp)
    (initOps : String → List SinkOp) (base : String) :
    List Row → Nat → Nat → List SinkOp
  | [], _, _ => []
  | row :: rows, rowID, suf =>
    if rowID > SheetMaxRows then
      SinkOp.newSheet (physName base (suf + 1)) ::
        (initOps (physName base (suf + 1)) ++ rowOps (physName base (suf + 1)) 1 row ++
          helperOpsRS rowOps initOps base rows 2 (suf + 1))
    else
      rowOps (physName base suf) rowID row ++ helperOpsRS rowOps initOps base rows (rowID + 1) suf

/-- Ghost write-invocation log a run of the helper loop produces. -/
def writesRS (base : String) : List Row → Nat → Nat → List WriteCall
  | [], _, _ => []
  | row :: rows, rowID, suf =>
    if rowID > SheetMaxRows then
      ⟨suf + 1, physName base (suf + 1), 1, row⟩ :: writesRS base rows 2 (suf + 1)
    else
      ⟨suf, physName base suf, rowID, row⟩ :: writesRS base rows (rowID + 1) suf

/-- Overflow sheets a run of the helper loop creates, in creation order. -/
def createdRS (base : String) : List Row → Nat → Nat → List String
  | [], _, _ => []
  | _ :: rows, rowID, suf =>
    if rowID > SheetMaxRows then
      physName base (suf + 1) :: createdRS base rows 2 (suf + 1)
    else createdRS base rows (rowID + 1) suf

/-- The loop's `sheetSuffix` after consuming the given data rows. -/
def sufAfterRS : List Row → Nat → Nat → Nat
  | [], _, suf => suf
  | _ :: rows, rowID, suf =>
    if rowID > SheetMaxRows then sufAfterRS rows 2 (suf + 1)
    else sufAfterRS rows (rowID + 1) suf

/-- `File.NewSheet` effect on the sheet list. -/
def addSheet (file : List String) (n : String) : List String :=
  if n ∈ file then file else file ++ [n]

/-- Iterated `addSheet`. -/
def addSheetList (file : List String) (ns : List String) : List String :=
  ns.foldl addSheet file

theorem memCellLoop_perfect (n : String) (rid : Nat) :
    ∀ (cells : List Cell) (j : Nat) (st : ExpoState),
      memCellLoop perfectSink n rid j cells st =
        ({ st with trace := st.trace ++ cellOpsMem n rid j cells }, none) := by
  intro cells
  induction cells with
  | nil => intro j st; simp [memCellLoop, cellOpsMem]
  | cons c cs ih =>
    intro j st
    by_cases hs : c.StyleID > 0 <;> by_cases hf : c.Formula ≠ "" <;>
      simp [memCellLoop, cellOpsMem, perform, perfectSink, updFile, updStream, hs, hf, ih,
        List.append_assoc]

theorem memMergeLoop_perfect (n : String) :
    ∀ (mcs : List MergeCell) (st : ExpoState),
      memMergeLoop perfectSink n mcs st =
        ({ st with trace := st.trace ++
            mcs.map (fun mc => SinkOp.mergeCellMem n mc.TopLeftCell mc.BottomRightCell) }, none) := by
  intro mcs
  induction mcs with
  | nil => intro st; simp [memMergeLoop]
  | cons mc mcs ih =>
    intro st
    simp [memMergeLoop, perform, perfectSink, updFile, updStream, ih, List.append_assoc]

theorem memWrite_perfect (n : String) (rid : Nat) (row : Row) (st : ExpoState) :
    memWrite perfectSink n rid row st =
      ({ st with trace := st.trace ++ rowOpsMem n rid row }, none) := by
  simp [memWrite, memCellLoop_perfect, memMergeLoop_perfect, rowOpsMem, List.append_assoc]

theorem strMergeLoop_perfect :
    ∀ (mcs : List MergeCell) (st : ExpoState),
      strMergeLoop perfectSink mcs st =
        ({ st with trace := st.trace ++
            mcs.map (fun mc =>
              SinkOp.mergeCellStream (st.streamSheet.getD "") mc.TopLeftCell mc.BottomRightCell) },
          none) := by
  intro mcs
  induction mcs with
  | nil => intro st; simp [strMergeLoop]
  | cons mc mcs ih =>
    intro st
    simp [strMergeLoop, perform, perfectSink, updFile, updStream, ih, List.append_assoc]

theorem strWrite_perfect (n : String) (rid : Nat) (row : Row) (st : ExpoState) :
    strWrite perfectSink n rid row st =
      ({ st with trace := st.trace ++ rowOpsStr (st.streamSheet.getD "") rid row }, none) := by
  simp [strWrite, perform, perfectSink, updFile, updStream, strMergeLoop_perfect, rowOpsStr,
    List.append_assoc]

theorem exportHelperLoop_mem_perfect (base : String) :
    ∀ (rows rest : List Row) (rowID suf : Nat) (st : ExpoState),
      (∀ x ∈ rows, x.Cells ≠ none) →
      st.currentSheet = physName base suf →
      exportHelperLoop perfectSink memInit (memWrite perfectSink) base
          (rows ++ sentinelRow :: rest) rowID suf st =
        ({ st with
            file := addSheetList st.file (createdRS base rows rowID suf)
            trace := st.trace ++ helperOpsRS rowOpsMem (fun _ => []) base rows rowID suf
            writes := st.writes ++ writesRS base rows rowID suf
            currentSheet := physName base (sufAfterRS rows rowID suf) },
          ExpoResult.ok) := by
  intro rows
  induction rows with
  | nil =>
    intro rest rowID suf st _ hcur
    obtain ⟨f, tr, w, cs, ss⟩ := st
    simp only [ExpoState.mk.injEq] at hcur
    simp [exportHelperLoop, sentinelRow, helperOpsRS, writesRS, createdRS, sufAfterRS,
      addSheetList, hcur]
  | cons row rows ih =>
    intro rest rowID suf st hrows hcur
    have hcell : ¬ row.Cells = none := hrows row (by simp)
    have hrows' : ∀ x ∈ rows, x.Cells ≠ none := fun x hx => hrows x (by simp [hx])
    by_cases hov : rowID > SheetMaxRows
    · obtain ⟨f, tr, w, cs, ss⟩ := st
      simp only at hcur
      subst hcur
      simp only [List.cons_append, exportHelperLoop, hcell, if_false, hov, if_true,
        perform, perfectSink, updFile, updStream, memInit, memWrite_perfect, List.append_eq]
      rw [ih rest 2 (suf + 1) _ hrows' (by simp [physName])]
      simp [helperOpsRS, writesRS, createdRS, sufAfterRS, hov, addSheetList, addSheet,
        physName, List.append_assoc]
    · obtain ⟨f, tr, w, cs, ss⟩ := st
      simp only at hcur
      subst hcur
      simp only [List.cons_append, exportHelperLoop, hcell, if_false, hov, if_true,
        memWrite_perfect, List.append_eq]
      rw [ih rest (rowID + 1) suf _ hrows' (by simp)]
      simp [helperOpsRS, writesRS, createdRS, sufAfterRS, hov, addSheetList,
        List.append_assoc]

/-- Per-init sink calls of the streaming variant: one `NewStreamWriter`. -/
def strInitOps (name : String) : List SinkOp := [SinkOp.newStreamWriter name]

theorem exportHelperLoop_str_perfect (base : String) :
    ∀ (rows rest : List Row) (rowID suf : Nat) (st : ExpoState),
      (∀ x ∈ rows, x.Cells ≠ none) →
      st.currentSheet = physName base suf →
      st.streamSheet = some (physName base suf) →
      exportHelperLoop perfectSink (strInit perfectSink) (strWrite perfectSink) base
          (rows ++ sentinelRow :: rest) rowID suf st =
        ({ st with
            file := addSheetList st.file (createdRS base rows rowID suf)
            trace := st.trace ++ helperOpsRS rowOpsStr strInitOps base rows rowID suf
            writes := st.writes ++ writesRS base rows rowID suf
            currentSheet := physName base (sufAfterRS rows rowID suf)
            streamSheet := some (physName base (sufAfterRS rows rowID suf)) },
          ExpoResult.ok) := by
  intro rows
  induction rows with
  | nil =>
    intro rest rowID suf st _ hcur hss
    obtain ⟨f, tr, w, cs, ss⟩ := st
    simp only at hcur hss
    simp [exportHelperLoop, sentinelRow, helperOpsRS, writesRS, createdRS, sufAfterRS,
      addSheetList, hcur, hss]
  | cons row rows ih =>
    intro rest rowID suf st hrows hcur hss
    have hcell : ¬ row.Cells = none := hrows row (by simp)
    have hrows' : ∀ x ∈ rows, x.Cells ≠ none := fun x hx => hrows x (by simp [hx])
    by_cases hov : rowID > SheetMaxRows
    · obtain ⟨f, tr, w, cs, ss⟩ := st
      simp only at hcur hss
      subst hcur hss
      simp only [List.cons_append, exportHelperLoop, hcell, if_false, hov, if_true,
        perform, perfectSink, updFile, updStream, strInit, strWrite_perfect, List.append_eq]
      rw [ih rest 2 (suf + 1) _ hrows' (by simp [physName]) (by simp [physName])]
      simp [helperOpsRS, writesRS, createdRS, sufAfterRS, hov, addSheetList, addSheet,
        physName, strInitOps, List.append_assoc]
    · obtain ⟨f, tr, w, cs, ss⟩ := st
      simp only at hcur hss
      subst hcur hss
      simp only [List.cons_append, exportHelperLoop, hcell, if_false, hov, if_true,
        strWrite_perfect, List.append_eq]
      rw [ih rest (rowID + 1) suf _ hrows' (by simp) (by simp)]
      simp [helperOpsRS, writesRS, createdRS, sufAfterRS, hov, addSheetList,
        List.append_assoc]

theorem exportUsingMemory_perfect (base : String) (rows rest : List Row) (st : ExpoState)
    (h : ∀ x ∈ rows, x.Cells ≠ none) :
    exportUsingMemory perfectSink ⟨base, rows ++ sentinelRow :: rest⟩ st =
      ({ st with
          file := addSheetList st.file (createdRS base rows 1 0)
          trace := st.trace ++ helperOpsRS rowOpsMem (fun _ => []) base rows 1 0
          writes := st.writes ++ writesRS base rows 1 0
          currentSheet := physName base (sufAfterRS rows 1 0) },
        ExpoResult.ok) := by
  unfold exportUsingMemory exportHelper
  simp only [memInit]
  rw [exportHelperLoop_mem_perfect base rows rest 1 0 _ h (by simp [physName])]

theorem exportUsingStreamWriter_perfect (base : String) (rows rest : List Row)
    (st : ExpoState) (h : ∀ x ∈ rows, x.Cells ≠ none) :
    exportUsingStreamWriter perfectSink ⟨base, rows ++ sentinelRow :: rest⟩ st =
      ({ st with
          file := addSheetList st.file (createdRS base rows 1 0)
          trace := st.trace ++ SinkOp.newStreamWriter base ::
            (helperOpsRS rowOpsStr strInitOps base rows 1 0 ++
              [SinkOp.flush (physName base (sufAfterRS rows 1 0))])
          writes := st.writes ++ writesRS base rows 1 0
          currentSheet := physName base (sufAfterRS rows 1 0)
          streamSheet := some (physName base (sufAfterRS rows 1 0)) },
        ExpoResult.ok) := by
  unfold exportUsingStreamWriter exportHelper
  simp only [strInit, perform, perfectSink, updFile, updStream]
  rw [exportHelperLoop_str_perfect base rows rest 1 0 _ h (by simp [physName])
    (by simp [physName])]
  simp [perform, perfectSink, updFile, updStream, List.append_assoc]

/-! ## Pure facts about the closed forms -/

theorem writesRS_length (base : String) :
    ∀ (rows : List Row) (rowID suf : Nat),
      (writesRS base rows rowID suf).length = rows.length := by
  intro rows
  induction rows with
  | nil => intro rowID suf; simp [writesRS]
  | cons row rows ih =>
    intro rowID suf
    by_cases hov : rowID > SheetMaxRows <;> simp [writesRS, hov, ih]

theorem writesRS_map_row (base : String) :
    ∀ (rows : List Row) (rowID suf : Nat),
      (writesRS base rows rowID suf).map (fun w => w.row) = rows := by
  intro rows
  induction rows with
  | nil => intro rowID suf; simp [writesRS]
  | cons row rows ih =>
    intro rowID suf
    by_cases hov : rowID > SheetMaxRows <;> simp [writesRS, hov, ih]

theorem writesRS_sheet (base : String) :
    ∀ (rows : List Row) (rowID suf : Nat),
      ∀ w ∈ writesRS base rows rowID suf, w.sheet = physName base w.suffix := by
  intro rows
  induction rows with
  | nil => intro rowID suf; simp [writesRS]
  | cons row rows ih =>
    intro rowID suf w hw
    by_cases hov : rowID > SheetMaxRows <;>
      simp only [writesRS, hov, if_true, if_false, List.mem_cons] at hw <;>
      rcases hw with h | h <;> first
        | (subst h; rfl)
        | exact ih _ _ w h

theorem writesRS_rowID_bounds (base : String) :
    ∀ (rows : List Row) (rowID suf : Nat), 1 ≤ rowID →
      ∀ w ∈ writesRS base rows rowID suf, 1 ≤ w.rowID ∧ w.rowID ≤ SheetMaxRows := by
  intro rows
  induction rows with
  | nil => intro rowID suf _; simp [writesRS]
  | cons row rows ih =>
    intro rowID suf h1 w hw
    by_cases hov : rowID > SheetMaxRows <;>
      simp only [writesRS, hov, if_true, if_false, List.mem_cons] at hw
    · rcases hw with h | h
      · subst h; constructor <;> simp [SheetMaxRows]
      · exact ih _ _ (by omega) w h
    · rcases hw with h | h
      · subst h; exact ⟨by simpa using h1, by simp; omega⟩
      · exact ih _ _ (by omega) w h

/-- The write log re-indexed by the global (0-based) row index `m`:
row `m` lands on physical sheet `m / SheetMaxRows` at cursor
`m % SheetMaxRows + 1`. -/
def writesM (base : String) : List Row → Nat → List WriteCall
  | [], _ => []
  | row :: rows, m =>
    ⟨m / SheetMaxRows, physName base (m / SheetMaxRows), m % SheetMaxRows + 1, row⟩ ::
      writesM base rows (m + 1)

theorem writesRS_eq_writesM (base : String) :
    ∀ (rows : List Row) (rowID suf : Nat), 1 ≤ rowID → rowID ≤ SheetMaxRows + 1 →
      writesRS base rows rowID suf =
        writesM base rows (suf * SheetMaxRows + (rowID - 1)) := by
  intro rows
  induction rows with
  | nil => intro rowID suf _ _; simp [writesRS, writesM]
  | cons row rows ih =>
    intro rowID suf h1 h2
    by_cases hov : rowID > SheetMaxRows
    · have hd : (suf * SheetMaxRows + (rowID - 1)) / SheetMaxRows = suf + 1 := by
        simp only [SheetMaxRows] at *; omega
      have hm : (suf * SheetMaxRows + (rowID - 1)) % SheetMaxRows + 1 = 1 := by
        simp only [SheetMaxRows] at *; omega
      have ht : suf * SheetMaxRows + (rowID - 1) + 1 =
          (suf + 1) * SheetMaxRows + (2 - 1) := by
        simp only [SheetMaxRows] at *; omega
      rw [show (writesRS base (row :: rows) rowID suf) =
          ⟨suf + 1, physName base (suf + 1), 1, row⟩ :: writesRS base rows 2 (suf + 1) by
            simp [writesRS, hov]]
      rw [ih 2 (suf + 1) (by omega) (by simp only [SheetMaxRows]; omega)]
      simp [writesM, hd, hm, ht]
    · have hd : (suf * SheetMaxRows + (rowID - 1)) / SheetMaxRows = suf := by
        simp only [SheetMaxRows] at *; omega
      have hm : (suf * SheetMaxRows + (rowID - 1)) % SheetMaxRows + 1 = rowID := by
        simp only [SheetMaxRows] at *; omega
      have ht : suf * SheetMaxRows + (rowID - 1) + 1 =
          suf * SheetMaxRows + (rowID + 1 - 1) := by omega
      rw [show (writesRS base (row :: rows) rowID suf) =
          ⟨suf, physName base suf, rowID, row⟩ :: writesRS base rows (rowID + 1) suf by
            simp [writesRS, hov]]
      rw [ih (rowID + 1) suf (by omega) (by omega)]
      simp [writesM, hd, hm, ht]

theorem writesM_filter_map (base : String) (k : Nat) :
    ∀ (rows : List Row) (m : Nat),
      ((writesM base rows m).filter (fun w => w.suffix == k)).map (fun w => w.rowID) =
        List.range' (max m (k * SheetMaxRows) - k * SheetMaxRows + 1)
          (min (m + rows.length) ((k + 1) * SheetMaxRows) - max m (k * SheetMaxRows)) := by
  intro rows
  induction rows with
  | nil =>
    intro m
    have h0 : min (m + ([] : List Row).length) ((k + 1) * SheetMaxRows) -
        max m (k * SheetMaxRows) = 0 := by
      simp only [List.length_nil, SheetMaxRows]; omega
    simp [writesM, h0]
  | cons row rows ih =>
    intro m
    by_cases hk : m / SheetMaxRows = k
    · have hlo : k * SheetMaxRows ≤ m := by simp only [SheetMaxRows] at *; omega
      have hhi : m < (k + 1) * SheetMaxRows := by simp only [SheetMaxRows] at *; omega
      have hstart : max m (k * SheetMaxRows) - k * SheetMaxRows + 1 =
          m % SheetMaxRows + 1 := by simp only [SheetMaxRows] at *; omega
      have hstart' : max (m + 1) (k * SheetMaxRows) - k * SheetMaxRows + 1 =
          m % SheetMaxRows + 1 + 1 := by simp only [SheetMaxRows] at *; omega
      have hlen : min (m + (row :: rows).length) ((k + 1) * SheetMaxRows) -
          max m (k * SheetMaxRows) =
          (min (m + 1 + rows.length) ((k + 1) * SheetMaxRows) -
            max (m + 1) (k * SheetMaxRows)) + 1 := by
        simp only [List.length_cons, SheetMaxRows] at *; omega
      rw [hlen, List.range'_succ, hstart]
      simp only [writesM, List.filter_cons, hk, beq_self_eq_true, if_true, List.map_cons]
      rw [ih (m + 1), hstart']
    · have hne : ((⟨m / SheetMaxRows, physName base (m / SheetMaxRows),
          m % SheetMaxRows + 1, row⟩ : WriteCall).suffix == k) = false := by
        simp [hk]
      have hcases : m < k * SheetMaxRows ∨ (k + 1) * SheetMaxRows ≤ m := by
        simp only [SheetMaxRows] at *; omega
      simp only [writesM, List.filter_cons, hne, if_false, Bool.false_eq_true]
      rw [ih (m + 1)]
      rcases hcases with hc | hc
      · have e1 : max (m + 1) (k * SheetMaxRows) = max m (k * SheetMaxRows) := by omega
        have e2 : m + 1 + rows.length = m + (row :: rows).length := by simp; omega
        rw [e1, e2]
      · have e1 : min (m + 1 + rows.length) ((k + 1) * SheetMaxRows) -
            max (m + 1) (k * SheetMaxRows) = 0 := by omega
        have e2 : min (m + (row :: rows).length) ((k + 1) * SheetMaxRows) -
            max m (k * SheetMaxRows) = 0 := by simp only [List.length_cons]; omega
        rw [e1, e2]
        simp

theorem sufAfterRS_ge : ∀ (rows : List Row) (rowID suf : Nat),
    suf ≤ sufAfterRS rows rowID suf := by
  intro rows
  induction rows with
  | nil => intro rowID suf; simp [sufAfterRS]
  | cons row rows ih =>
    intro rowID suf
    by_cases hov : rowID > SheetMaxRows <;> simp only [sufAfterRS, hov, if_true, if_false]
    · have := ih 2 (suf + 1); omega
    · exact ih (rowID + 1) suf

theorem sufAfterRS_eq :
    ∀ (rows : List Row) (rowID suf : Nat), 1 ≤ rowID → rowID ≤ SheetMaxRows + 1 →
      sufAfterRS rows rowID suf =
        if rows.length = 0 then suf
        else (suf * SheetMaxRows + (rowID - 1) + rows.length - 1) / SheetMaxRows := by
  intro rows
  induction rows with
  | nil => intro rowID suf _ _; simp [sufAfterRS]
  | cons row rows ih =>
    intro rowID suf h1 h2
    rw [List.length_cons, if_neg (by omega : ¬ rows.length + 1 = 0)]
    by_cases hov : rowID > SheetMaxRows <;> simp only [sufAfterRS, hov, if_true, if_false]
    · rw [ih 2 (suf + 1) (by omega) (by simp only [SheetMaxRows]; omega)]
      by_cases hn : rows.length = 0
      · rw [if_pos hn, hn]; simp only [SheetMaxRows] at *; omega
      · rw [if_neg hn]; simp only [SheetMaxRows] at *; omega
    · rw [ih (rowID + 1) suf (by omega) (by omega)]
      by_cases hn : rows.length = 0
      · rw [if_pos hn, hn]; simp only [SheetMaxRows] at *; omega
      · rw [if_neg hn]; simp only [SheetMaxRows] at *; omega

theorem sufAfterRS_top (rows : List Row) :
    sufAfterRS rows 1 0 = (rows.length - 1) / SheetMaxRows := by
  rw [sufAfterRS_eq rows 1 0 (by omega) (by omega)]
  set_option linter.unnecessarySeqFocus false in
  by_cases hn : rows.length = 0 <;> simp only [hn, if_true, if_false] <;>
    simp only [SheetMaxRows] at * <;> omega

theorem createdRS_eq (base : String) :
    ∀ (rows : List Row) (rowID suf : Nat),
      createdRS base rows rowID suf =
        (List.range' (suf + 1) (sufAfterRS rows rowID suf - suf)).map (physName base) := by
  intro rows
  induction rows with
  | nil => intro rowID suf; simp [createdRS, sufAfterRS]
  | cons row rows ih =>
    intro rowID suf
    by_cases hov : rowID > SheetMaxRows <;>
      simp only [createdRS, sufAfterRS, hov, if_true, if_false]
    · rw [ih 2 (suf + 1)]
      have hge := sufAfterRS_ge rows 2 (suf + 1)
      have h1 : sufAfterRS rows 2 (suf + 1) - suf =
          (sufAfterRS rows 2 (suf + 1) - (suf + 1)) + 1 := by omega
      rw [h1, List.range'_succ]
      simp
    · exact ih (rowID + 1) suf

theorem decDigits_ne_nil (n : Nat) : decDigits n ≠ [] := by
  unfold decDigits; split <;> simp

theorem physName_length (base : String) (k : Nat) (hk : 1 ≤ k) :
    base.length < (physName base k).length := by
  obtain ⟨j, rfl⟩ : ∃ j, k = j + 1 := ⟨k - 1, by omega⟩
  have h := decDigits_ne_nil (j + 1)
  have hpos : 0 < (decDigits (j + 1)).length := List.length_pos.mpr h
  simp only [physName, natDecStr, String.length_append, String.length_mk]
  have h1 : ("_" : String).length = 1 := rfl
  omega

theorem physName_ne_base (base : String) (k : Nat) (hk : 1 ≤ k) :
    physName base k ≠ base := by
  intro h
  have := physName_length base k hk
  rw [h] at this
  omega

/-- Flush, save and delete calls: the operations the row loop itself never
performs. -/
def isAdminOp (op : SinkOp) : Bool :=
  match op with
  | SinkOp.flush _ => true
  | SinkOp.saveAs _ => true
  | SinkOp.deleteSheet _ => true
  | _ => false

/-- Sheet-creation calls. -/
def isNewSheetOp (op : SinkOp) : Bool :=
  match op with
  | SinkOp.newSheet _ => true
  | _ => false

theorem cellOpsMem_flags (s : String) (r : Nat) :
    ∀ (cells : List Cell) (j : Nat), ∀ op ∈ cellOpsMem s r j cells,
      isAdminOp op = false ∧ isNewSheetOp op = false := by
  intro cells
  induction cells with
  | nil => intro j; simp [cellOpsMem]
  | cons c cs ih =>
    intro j op hop
    simp only [cellOpsMem, List.mem_cons, List.mem_append] at hop
    rcases hop with rfl | ((hop | hop) | hop)
    · exact ⟨rfl, rfl⟩
    · split at hop
      · simp only [List.mem_singleton] at hop; subst hop; exact ⟨rfl, rfl⟩
      · simp at hop
    · split at hop
      · simp only [List.mem_singleton] at hop; subst hop; exact ⟨rfl, rfl⟩
      · simp at hop
    · exact ih (j + 1) op hop

theorem rowOpsMem_flags (s : String) (r : Nat) (row : Row) :
    ∀ op ∈ rowOpsMem s r row, isAdminOp op = false ∧ isNewSheetOp op = false := by
  intro op hop
  rcases List.mem_append.mp hop with h | h
  · exact cellOpsMem_flags s r _ 0 op h
  · rcases List.mem_map.mp h with ⟨mc, _, rfl⟩
    exact ⟨rfl, rfl⟩

theorem rowOpsStr_flags (s : String) (r : Nat) (row : Row) :
    ∀ op ∈ rowOpsStr s r row, isAdminOp op = false ∧ isNewSheetOp op = false := by
  intro op hop
  rcases List.mem_cons.mp hop with rfl | h
  · exact ⟨rfl, rfl⟩
  · rcases List.mem_map.mp h with ⟨mc, _, rfl⟩
    exact ⟨rfl, rfl⟩

theorem helperOpsRS_mem (rowOps : String → Nat → Row → List SinkOp)
    (initOps : String → List SinkOp) (base : String) (P : SinkOp → Prop)
    (hrow : ∀ s r row, ∀ op ∈ rowOps s r row, P op)
    (hini : ∀ n, ∀ op ∈ initOps n, P op)
    (hnew : ∀ n, P (SinkOp.newSheet n)) :
    ∀ (rows : List Row) (rowID suf : Nat),
      ∀ op ∈ helperOpsRS rowOps initOps base rows rowID suf, P op := by
  intro rows
  induction rows with
  | nil => intro rowID suf; simp [helperOpsRS]
  | cons row rows ih =>
    intro rowID suf op hop
    by_cases hov : rowID > SheetMaxRows <;>
      simp only [helperOpsRS, hov, if_true, if_false, List.mem_cons, List.mem_append] at hop
    · rcases hop with rfl | (h | h) | h
      · exact hnew _
      · exact hini _ op h
      · exact hrow _ _ _ op h
      · exact ih 2 (suf + 1) op h
    · rcases hop with h | h
      · exact hrow _ _ _ op h
      · exact ih (rowID + 1) suf op h

theorem helperOpsRS_mem_noov (rowOps : String → Nat → Row → List SinkOp)
    (initOps : String → List SinkOp) (base : String) (P : SinkOp → Prop)
    (hrow : ∀ s r row, ∀ op ∈ rowOps s r row, P op) :
    ∀ (rows : List Row) (rowID suf : Nat), rowID + rows.length ≤ SheetMaxRows + 1 →
      ∀ op ∈ helperOpsRS rowOps initOps base rows rowID suf, P op := by
  intro rows
  induction rows with
  | nil => intro rowID suf _; simp [helperOpsRS]
  | cons row rows ih =>
    intro rowID suf hle op hop
    have hov : ¬ rowID > SheetMaxRows := by
      simp only [List.length_cons] at hle; omega
    simp only [helperOpsRS, hov, if_false, List.mem_append] at hop
    rcases hop with h | h
    · exact hrow _ _ _ op h
    · exact ih (rowID + 1) suf (by simp only [List.length_cons] at hle; omega) op h

theorem exportHelperLoop_sentinel_stops (o : Oracle)
    (initF : String → ExpoState → ExpoState × Option String)
    (writeF : String → Nat → Row → ExpoState → ExpoState × Option String)
    (base : String) :
    ∀ (rows rest : List Row) (rowID suf : Nat) (st : ExpoState),
      (∀ x ∈ rows, x.Cells ≠ none) →
      exportHelperLoop o initF writeF base (rows ++ sentinelRow :: rest) rowID suf st =
        exportHelperLoop o initF writeF base (rows ++ [sentinelRow]) rowID suf st := by
  intro rows
  induction rows with
  | nil =>
    intro rest rowID suf st _
    simp [exportHelperLoop, sentinelRow]
  | cons row rows ih =>
    intro rest rowID suf st hrows
    have hcell : ¬ row.Cells = none := hrows row (by simp)
    have hrows' : ∀ x ∈ rows, x.Cells ≠ none := fun x hx => hrows x (by simp [hx])
    simp only [List.cons_append, exportHelperLoop, hcell, if_false, List.append_eq]
    by_cases hov : rowID > SheetMaxRows <;> simp only [hov, if_true, if_false]
    · split
      · rfl
      · split
        · rfl
        · split
          · rfl
          · exact ih rest 2 (suf + 1) _ hrows'
    · split
      · rfl
      · exact ih rest (rowID + 1) suf _ hrows'

/-- Save calls. -/
def isSaveOp (op : SinkOp) : Bool :=
  match op with
  | SinkOp.saveAs _ => true
  | _ => false

/-- Sheet-deletion calls. -/
def isDeleteOp (op : SinkOp) : Bool :=
  match op with
  | SinkOp.deleteSheet _ => true
  | _ => false

/-- Flush calls. -/
def isFlushOp (op : SinkOp) : Bool :=
  match op with
  | SinkOp.flush _ => true
  | _ => false

theorem not_admin_not_save {op : SinkOp} (h : isAdminOp op = false) : isSaveOp op = false := by
  cases op <;> first | rfl | exact h

theorem not_admin_not_delete {op : SinkOp} (h : isAdminOp op = false) :
    isDeleteOp op = false := by
  cases op <;> first | rfl | exact h

theorem not_admin_not_flush {op : SinkOp} (h : isAdminOp op = false) :
    isFlushOp op = false := by
  cases op <;> first | rfl | exact h

/-- Whether an export outcome is an error. -/
def isErrRes : ExpoResult → Bool
  | ExpoResult.err _ => true
  | _ => false

theorem exportHelperLoop_mem_perfect_noerr (base : String) :
    ∀ (pulls : List Row) (rowID suf : Nat) (st : ExpoState),
      isErrRes (exportHelperLoop perfectSink memInit (memWrite perfectSink) base
        pulls rowID suf st).2 = false := by
  intro pulls
  induction pulls with
  | nil => intro rowID suf st; simp [exportHelperLoop, isErrRes]
  | cons row pulls ih =>
    intro rowID suf st
    by_cases hcell : row.Cells = none
    · simp [exportHelperLoop, hcell, isErrRes]
    · by_cases hov : rowID > SheetMaxRows <;>
        simp only [exportHelperLoop, hcell, if_false, hov, if_true, perform, perfectSink,
          updFile, updStream, memInit, memWrite_perfect] <;>
      apply ih

theorem exportHelperLoop_str_perfect_noerr (base : String) :
    ∀ (pulls : List Row) (rowID suf : Nat) (st : ExpoState),
      isErrRes (exportHelperLoop perfectSink (strInit perfectSink) (strWrite perfectSink) base
        pulls rowID suf st).2 = false := by
  intro pulls
  induction pulls with
  | nil => intro rowID suf st; simp [exportHelperLoop, isErrRes]
  | cons row pulls ih =>
    intro rowID suf st
    by_cases hcell : row.Cells = none
    · simp [exportHelperLoop, hcell, isErrRes]
    · by_cases hov : rowID > SheetMaxRows <;>
        simp only [exportHelperLoop, hcell, if_false, hov, if_true, perform, perfectSink,
          updFile, updStream, strInit, strWrite_perfect] <;>
      apply ih

theorem strFlush_match_noerr (name : String) (pulls : List Row) (st1 : ExpoState) :
    isErrRes (match exportHelperLoop perfectSink (strInit perfectSink) (strWrite perfectSink)
        name pulls 1 0 st1 with
      | (st2, ExpoResult.ok) =>
        match perform perfectSink (SinkOp.flush (st2.streamSheet.getD "")) st2 with
        | (st3, some e) => (st3, ExpoResult.err e)
        | (st3, none) => (st3, ExpoResult.ok)
      | r => r).2 = false := by
  rcases h : exportHelperLoop perfectSink (strInit perfectSink) (strWrite perfectSink)
      name pulls 1 0 st1 with ⟨st2, r⟩
  have hne := exportHelperLoop_str_perfect_noerr name pulls 1 0 st1
  rw [h] at hne
  cases r with
  | ok => simp [perform, perfectSink, isErrRes]
  | err e => simp [isErrRes] at hne
  | hang => simp [isErrRes]

theorem exportSheetDef_perfect_noerr (useStream : Bool) (sheet : SheetData)
    (st : ExpoState) :
    isErrRes (exportSheetDef perfectSink useStream sheet st).2 = false := by
  cases useStream with
  | false =>
    simp only [exportSheetDef, Bool.false_eq_true, if_false]
    unfold exportUsingMemory exportHelper
    simp only [memInit]
    apply exportHelperLoop_mem_perfect_noerr
  | true =>
    simp only [exportSheetDef, if_true]
    unfold exportUsingStreamWriter exportHelper
    simp only [strInit, perform, perfectSink, updFile, updStream]
    exact strFlush_match_noerr sheet.Name sheet.pulls _

theorem ExportLoop_step_noerr (fileName : String) (useStream : Bool)
    (sheet : SheetData) (rest : List SheetData) (i : Nat)
    (ih : ∀ (i : Nat) (st : ExpoState),
      isErrRes (ExportLoop perfectSink fileName useStream rest i st).2 = false)
    (st2 : ExpoState) :
    isErrRes (match exportSheetDef perfectSink useStream sheet st2 with
      | (st3, ExpoResult.ok) => ExportLoop perfectSink fileName useStream rest (i + 1) st3
      | r => r).2 = false := by
  rcases h : exportSheetDef perfectSink useStream sheet st2 with ⟨st3, r⟩
  have hne := exportSheetDef_perfect_noerr useStream sheet st2
  rw [h] at hne
  cases r with
  | ok => exact ih _ _
  | err e => simp [isErrRes] at hne
  | hang => simp [isErrRes]

theorem ExportLoop_perfect_noerr (fileName : String) (useStream : Bool) :
    ∀ (sheets : List SheetData) (i : Nat) (st : ExpoState),
      isErrRes (ExportLoop perfectSink fileName useStream sheets i st).2 = false := by
  intro sheets
  induction sheets with
  | nil => intro i st; simp [ExportLoop, perform, perfectSink, isErrRes]
  | cons sheet rest ih =>
    intro i st
    simp only [ExportLoop, perform, perfectSink, updFile, updStream]
    split
    · next heq => split at heq <;> (try split at heq) <;> simp_all
    · exact ExportLoop_step_noerr fileName useStream sheet rest i ih _

/-- A sink that rejects exactly the streaming row write for row index `K`,
with error message `msg`, and accepts everything else. -/
def rejectRowAt (K : Nat) (msg : String) : Oracle := fun op =>
  match op with
  | SinkOp.setRow _ rid _ _ => if rid = K then some msg else none
  | _ => none

theorem strMergeLoop_reject (K : Nat) (msg : String) :
    ∀ (mcs : List MergeCell) (st : ExpoState),
      strMergeLoop (rejectRowAt K msg) mcs st =
        ({ st with trace := st.trace ++
            mcs.map (fun mc =>
              SinkOp.mergeCellStream (st.streamSheet.getD "") mc.TopLeftCell mc.BottomRightCell) },
          none) := by
  intro mcs
  induction mcs with
  | nil => intro st; simp [strMergeLoop]
  | cons mc mcs ih =>
    intro st
    simp [strMergeLoop, perform, rejectRowAt, updFile, updStream, ih, List.append_assoc]

theorem strWrite_reject_ne (K : Nat) (msg : String) (n : String) (rid : Nat) (row : Row)
    (st : ExpoState) (h : ¬ rid = K) :
    strWrite (rejectRowAt K msg) n rid row st =
      ({ st with trace := st.trace ++ rowOpsStr (st.streamSheet.getD "") rid row }, none) := by
  simp [strWrite, perform, rejectRowAt, h, updFile, updStream, strMergeLoop_reject, rowOpsStr,
    List.append_assoc]

theorem strWrite_reject_eq (K : Nat) (msg : String) (n : String) (row : Row)
    (st : ExpoState) :
    strWrite (rejectRowAt K msg) n K row st = (st, some msg) := by
  simp [strWrite, perform, rejectRowAt]

theorem exportHelperLoop_str_reject (base : String) (K : Nat) (msg : String)
    (hKcap : K ≤ SheetMaxRows) :
    ∀ (rows tail : List Row) (rowID suf : Nat) (st : ExpoState),
      (∀ x ∈ rows, x.Cells ≠ none) →
      K < rowID + rows.length → 1 ≤ rowID → rowID ≤ K →
      st.currentSheet = physName base suf →
      st.streamSheet = some (physName base suf) →
      exportHelperLoop (rejectRowAt K msg) (strInit (rejectRowAt K msg))
          (strWrite (rejectRowAt K msg)) base (rows ++ tail) rowID suf st =
        ({ st with
            trace := st.trace ++
              helperOpsRS rowOpsStr strInitOps base (rows.take (K - rowID)) rowID suf
            writes := st.writes ++ writesRS base (rows.take (K - rowID + 1)) rowID suf },
          ExpoResult.err msg) := by
  intro rows
  induction rows with
  | nil =>
    intro tail rowID suf st _ hlt h1 hK _ _
    simp only [List.length_nil] at hlt
    omega
  | cons row rows ih =>
    intro tail rowID suf st hrows hlt h1 hK hcur hss
    obtain ⟨f, tr, w, cs, ss⟩ := st
    simp only at hcur hss
    subst hcur
    subst hss
    have hcell : ¬ row.Cells = none := hrows row (by simp)
    have hrows' : ∀ x ∈ rows, x.Cells ≠ none := fun x hx => hrows x (by simp [hx])
    have hov : ¬ rowID > SheetMaxRows := by omega
    by_cases hKr : rowID = K
    · subst hKr
      simp only [List.cons_append, exportHelperLoop, hcell, if_false, hov, if_true,
        List.append_eq]
      rw [strWrite_reject_eq]
      have htk : rowID - rowID = 0 := by omega
      have htk1 : rowID - rowID + 1 = 1 := by omega
      simp [htk, htk1, helperOpsRS, writesRS, hov, List.take_succ_cons]
    · have hlt2 : rowID < K := by omega
      simp only [List.cons_append, exportHelperLoop, hcell, if_false, hov, if_true,
        List.append_eq]
      rw [strWrite_reject_ne K msg _ rowID row _ (by omega)]
      simp only
      rw [ih tail (rowID + 1) suf _ hrows'
        (by simp only [List.length_cons] at hlt; omega) (by omega) (by omega)
        (by simp) (by simp)]
      have e1 : K - rowID = (K - (rowID + 1)) + 1 := by omega
      rw [e1, List.take_succ_cons, List.take_succ_cons]
      simp [helperOpsRS, writesRS, hov, List.append_assoc]

theorem rejectRowAt_newSheet (K : Nat) (msg n : String) :
    rejectRowAt K msg (SinkOp.newSheet n) = none := rfl

theorem rejectRowAt_deleteSheet (K : Nat) (msg n : String) :
    rejectRowAt K msg (SinkOp.deleteSheet n) = none := rfl

theorem rejectRowAt_newStreamWriter (K : Nat) (msg n : String) :
    rejectRowAt K msg (SinkOp.newStreamWriter n) = none := rfl

/-- The exporter state right after `Export` has created the first
definition's sheet and conditionally removed the default sheet: when the
first definition is itself named `"Sheet1"`, the document still has one
sheet and nothing is deleted; otherwise the placeholder is deleted. -/
def startState (n : String) : ExpoState :=
  { file := if n = "Sheet1" then ["Sheet1"] else [n]
    trace := if n = "Sheet1" then [SinkOp.newSheet "Sheet1"]
             else [SinkOp.newSheet n, SinkOp.deleteSheet "Sheet1"]
    writes := []
    currentSheet := ""
    streamSheet := none }

theorem ExportLoop_cons_start (o : Oracle) (fn : String) (us : Bool) (d : SheetData)
    (rest : List SheetData) (hn : o (SinkOp.newSheet d.Name) = none)
    (hd : o (SinkOp.deleteSheet "Sheet1") = none) :
    ExportLoop o fn us (d :: rest) 0 initState =
      (match exportSheetDef o us d (startState d.Name) with
       | (st3, ExpoResult.ok) => ExportLoop o fn us rest 1 st3
       | r => r) := by
  simp only [ExportLoop, perform, hn, hd, updFile, updStream, initState]
  by_cases h1 : d.Name = "Sheet1"
  · simp [h1, startState]
  · simp only [List.mem_singleton, h1, if_false, startState]
    have herase : (("Sheet1" :: [d.Name]) : List String).erase "Sheet1" = [d.Name] :=
      List.erase_cons_head _ _
    simp [herase, h1]

theorem Export_reject_eq (base fn msg : String) (K : Nat) (rows tail : List Row)
    (hr : ∀ x ∈ rows, x.Cells ≠ none) (hK1 : 1 ≤ K) (hKcap : K ≤ SheetMaxRows)
    (hlen : K ≤ rows.length) :
    Export (rejectRowAt K msg) fn true [⟨base, rows ++ tail⟩] =
      ({ file := if base = "Sheet1" then ["Sheet1"] else [base]
         trace := (if base = "Sheet1" then [SinkOp.newSheet "Sheet1"]
             else [SinkOp.newSheet base, SinkOp.deleteSheet "Sheet1"]) ++
           SinkOp.newStreamWriter base ::
             helperOpsRS rowOpsStr strInitOps base (rows.take (K - 1)) 1 0
         writes := writesRS base (rows.take K) 1 0
         currentSheet := base
         streamSheet := some base }, ExpoResult.err msg) := by
  have hK' : K - 1 + 1 = K := by omega
  unfold Export
  rw [ExportLoop_cons_start _ _ _ _ _ (rejectRowAt_newSheet _ _ _)
    (rejectRowAt_deleteSheet _ _ _)]
  simp only [exportSheetDef, if_true]
  unfold exportUsingStreamWriter exportHelper
  simp only [strInit, perform, rejectRowAt_newStreamWriter, updFile, updStream]
  rw [exportHelperLoop_str_reject base K msg hKcap rows tail 1 0 _ hr
    (by omega) (by omega) (by omega) (by simp [physName]) (by simp [physName])]
  simp [startState, hK', List.append_assoc]

theorem perform_cdel (o : Oracle) (op : SinkOp) (st : ExpoState)
    (h : isDeleteOp op = false) (st1 : ExpoState) (e : Option String)
    (heq : perform o op st = (st1, e)) :
    st1.trace.countP isDeleteOp = st.trace.countP isDeleteOp := by
  unfold perform at heq
  cases ho : o op <;> rw [ho] at heq
  · injection heq with h1 h2
    subst h1
    simp [List.countP_append, List.countP_cons, h]
  · injection heq with h1 h2
    subst h1
    rfl

theorem memCellLoop_cdel (o : Oracle) (n : String) (rid : Nat) :
    ∀ (cells : List Cell) (j : Nat) (st : ExpoState),
      ((memCellLoop o n rid j cells st).1).trace.countP isDeleteOp =
        st.trace.countP isDeleteOp := by
  intro cells
  induction cells with
  | nil => intro j st; rfl
  | cons c cs ih =>
    intro j st
    simp only [memCellLoop]
    split
    · next st1 e heq => exact perform_cdel o _ st (by rfl) st1 _ heq
    · next st1 heq =>
      have h1 := perform_cdel o _ st (by rfl) st1 _ heq
      split
      · next st2 e heq2 =>
        split at heq2
        · exact (perform_cdel o _ st1 (by rfl) st2 _ heq2).trans h1
        · injection heq2 with h2 h3; subst h2; exact h1
      · next st2 heq2 =>
        have h2 : st2.trace.countP isDeleteOp = st1.trace.countP isDeleteOp := by
          split at heq2
          · exact perform_cdel o _ st1 (by rfl) st2 _ heq2
          · injection heq2 with h2 h3; subst h2; rfl
        split
        · next st3 e heq3 =>
          have h3 : st3.trace.countP isDeleteOp = st2.trace.countP isDeleteOp := by
            split at heq3
            · exact perform_cdel o _ st2 (by rfl) st3 _ heq3
            · injection heq3 with h3 h4; subst h3; rfl
          exact h3.trans (h2.trans h1)
        · next st3 heq3 =>
          have h3 : st3.trace.countP isDeleteOp = st2.trace.countP isDeleteOp := by
            split at heq3
            · exact perform_cdel o _ st2 (by rfl) st3 _ heq3
            · injection heq3 with h3 h4; subst h3; rfl
          rw [ih (j + 1) st3, h3, h2, h1]

theorem memMergeLoop_cdel (o : Oracle) (n : String) :
    ∀ (mcs : List MergeCell) (st : ExpoState),
      ((memMergeLoop o n mcs st).1).trace.countP isDeleteOp =
        st.trace.countP isDeleteOp := by
  intro mcs
  induction mcs with
  | nil => intro st; rfl
  | cons mc mcs ih =>
    intro st
    simp only [memMergeLoop]
    split
    · next st1 e heq => exact perform_cdel o _ st (by rfl) st1 _ heq
    · next st1 heq => rw [ih st1, perform_cdel o _ st (by rfl) st1 _ heq]

theorem strMergeLoop_cdel (o : Oracle) :
    ∀ (mcs : List MergeCell) (st : ExpoState),
      ((strMergeLoop o mcs st).1).trace.countP isDeleteOp =
        st.trace.countP isDeleteOp := by
  intro mcs
  induction mcs with
  | nil => intro st; rfl
  | cons mc mcs ih =>
    intro st
    simp only [strMergeLoop]
    split
    · next st1 e heq => exact perform_cdel o _ st (by rfl) st1 _ heq
    · next st1 heq => rw [ih st1, perform_cdel o _ st (by rfl) st1 _ heq]

theorem memWrite_cdel (o : Oracle) (n : String) (rid : Nat) (row : Row) (st : ExpoState) :
    ((memWrite o n rid row st).1).trace.countP isDeleteOp =
      st.trace.countP isDeleteOp := by
  unfold memWrite
  split
  · next st1 e heq =>
    have := memCellLoop_cdel o n rid (row.Cells.getD []) 0 st
    rw [heq] at this
    exact this
  · next st1 heq =>
    have h1 := memCellLoop_cdel o n rid (row.Cells.getD []) 0 st
    rw [heq] at h1
    rw [memMergeLoop_cdel o n row.MergeCells st1, h1]

theorem strWrite_cdel (o : Oracle) (n : String) (rid : Nat) (row : Row) (st : ExpoState) :
    ((strWrite o n rid row st).1).trace.countP isDeleteOp =
      st.trace.countP isDeleteOp := by
  unfold strWrite
  split
  · next st1 e heq => exact perform_cdel o _ st (by rfl) st1 _ heq
  · next st1 heq =>
    rw [strMergeLoop_cdel o row.MergeCells st1, perform_cdel o _ st (by rfl) st1 _ heq]

theorem strInit_cdel (o : Oracle) (n : String) (st : ExpoState) (st1 : ExpoState)
    (e : Option String) (heq : strInit o n st = (st1, e)) :
    st1.trace.countP isDeleteOp = st.trace.countP isDeleteOp := by
  exact perform_cdel o _ st (by rfl) st1 _ heq

theorem exportHelperLoop_cdel (o : Oracle)
    (initF : String → ExpoState → ExpoState × Option String)
    (writeF : String → Nat → Row → ExpoState → ExpoState × Option String)
    (hinit : ∀ (n : String) (st st1 : ExpoState) (e : Option String),
      initF n st = (st1, e) → st1.trace.countP isDeleteOp = st.trace.countP isDeleteOp)
    (hwrite : ∀ (n : String) (r : Nat) (row : Row) (st : ExpoState),
      ((writeF n r row st).1).trace.countP isDeleteOp = st.trace.countP isDeleteOp)
    (base : String) :
    ∀ (pulls : List Row) (rowID suf : Nat) (st : ExpoState),
      ((exportHelperLoop o initF writeF base pulls rowID suf st).1).trace.countP isDeleteOp
        = st.trace.countP isDeleteOp := by
  intro pulls
  induction pulls with
  | nil => intro rowID suf st; rfl
  | cons row pulls ih =>
    intro rowID suf st
    simp only [exportHelperLoop]
    split
    · rfl
    · split
      · split
        · next st1 e heq => exact perform_cdel o _ st (by rfl) st1 _ heq
        · next st1 heq =>
          have h1 := perform_cdel o _ st (by rfl) st1 _ heq
          split
          · next st3 e heq2 =>
            have h2 := hinit _ _ st3 _ heq2
            exact h2.trans h1
          · next st3 heq2 =>
            have h2 := hinit _ _ st3 _ heq2
            split
            · next st5 e heq3 =>
              have h3 := hwrite st3.currentSheet 1 row
                { st3 with writes := st3.writes ++ [⟨suf + 1, st3.currentSheet, 1, row⟩] }
              rw [heq3] at h3
              exact h3.trans (h2.trans h1)
            · next st5 heq3 =>
              have h3 := hwrite st3.currentSheet 1 row
                { st3 with writes := st3.writes ++ [⟨suf + 1, st3.currentSheet, 1, row⟩] }
              rw [heq3] at h3
              rw [ih 2 (suf + 1) st5]
              exact h3.trans (h2.trans h1)
      · split
        · next st5 e heq3 =>
          have h3 := hwrite st.currentSheet rowID row
            { st with writes := st.writes ++ [⟨suf, st.currentSheet, rowID, row⟩] }
          rw [heq3] at h3
          exact h3
        · next st5 heq3 =>
          have h3 := hwrite st.currentSheet rowID row
            { st with writes := st.writes ++ [⟨suf, st.currentSheet, rowID, row⟩] }
          rw [heq3] at h3
          rw [ih (rowID + 1) suf st5]
          exact h3

theorem exportSheetDef_cdel (o : Oracle) (useStream : Bool) (sheet : SheetData)
    (st : ExpoState) :
    ((exportSheetDef o useStream sheet st).1).trace.countP isDeleteOp =
      st.trace.countP isDeleteOp := by
  cases useStream with
  | false =>
    simp only [exportSheetDef, Bool.false_eq_true, if_false]
    unfold exportUsingMemory exportHelper
    simp only [memInit]
    exact exportHelperLoop_cdel o memInit (memWrite o)
      (fun n st st1 e heq => by injection heq with h1 h2; subst h1; rfl)
      (fun n r row st => memWrite_cdel o n r row st) sheet.Name sheet.pulls 1 0 _
  | true =>
    simp only [exportSheetDef, if_true]
    unfold exportUsingStreamWriter exportHelper
    dsimp only
    rcases hinit : strInit o sheet.Name { st with currentSheet := sheet.Name } with ⟨stA, eA⟩
    cases eA with
    | some e =>
      have hA := strInit_cdel o _ _ stA _ hinit
      dsimp only
      exact hA
    | none =>
      have hA := strInit_cdel o _ _ stA _ hinit
      dsimp only
      rcases hloop : exportHelperLoop o (strInit o) (strWrite o) sheet.Name sheet.pulls 1 0 stA
        with ⟨stB, r⟩
      have hB : stB.trace.countP isDeleteOp = stA.trace.countP isDeleteOp := by
        have h0 := exportHelperLoop_cdel o (strInit o) (strWrite o)
          (fun n st st1 e heq => strInit_cdel o n st st1 e heq)
          (fun n r row st => strWrite_cdel o n r row st) sheet.Name sheet.pulls 1 0 stA
        rw [hloop] at h0
        exact h0
      cases r with
      | ok =>
        dsimp only
        rcases hf : perform o (SinkOp.flush (stB.streamSheet.getD "")) stB with ⟨stC, eC⟩
        have hC := perform_cdel o _ stB (by rfl) stC _ hf
        cases eC with
        | some e => dsimp only; exact hC.trans (hB.trans hA)
        | none => dsimp only; exact hC.trans (hB.trans hA)
      | err e => dsimp only; exact hB.trans hA
      | hang => dsimp only; exact hB.trans hA

theorem perform_cdel_le (o : Oracle) (op : SinkOp) (st st1 : ExpoState) (e : Option String)
    (heq : perform o op st = (st1, e)) :
    st1.trace.countP isDeleteOp ≤ st.trace.countP isDeleteOp + 1 := by
  unfold perform at heq
  cases ho : o op <;> rw [ho] at heq <;> injection heq with h1 h2 <;> subst h1
  · simp only [List.countP_append, List.countP_cons, List.countP_nil]
    split <;> omega
  · omega

theorem ExportLoop_cdel_pos (o : Oracle) (fn : String) (us : Bool) :
    ∀ (sheets : List SheetData) (i : Nat) (st : ExpoState), i ≠ 0 →
      ((ExportLoop o fn us sheets i st).1).trace.countP isDeleteOp =
        st.trace.countP isDeleteOp := by
  intro sheets
  induction sheets with
  | nil =>
    intro i st hi
    simp only [ExportLoop]
    rcases hs : perform o (SinkOp.saveAs fn) st with ⟨st1, e⟩
    have h1 := perform_cdel o _ st (by rfl) st1 _ hs
    cases e <;> dsimp only <;> exact h1
  | cons sheet rest ih =>
    intro i st hi
    simp only [ExportLoop]
    rcases hn : perform o (SinkOp.newSheet sheet.Name) st with ⟨st1, e1⟩
    have h1 := perform_cdel o _ st (by rfl) st1 _ hn
    cases e1 with
    | some e => dsimp only; exact h1
    | none =>
      dsimp only
      rw [if_neg (fun hcon => hi hcon.1)]
      dsimp only
      rcases hd : exportSheetDef o us sheet st1 with ⟨st3, r⟩
      have h3 := exportSheetDef_cdel o us sheet st1
      rw [hd] at h3
      cases r with
      | ok => dsimp only; rw [ih (i + 1) st3 (by omega)]; exact h3.trans h1
      | err e => dsimp only; exact h3.trans h1
      | hang => dsimp only; exact h3.trans h1

theorem ExportLoop_cdel_start (o : Oracle) (fn : String) (us : Bool)
    (sheets : List SheetData) (st : ExpoState) :
    ((ExportLoop o fn us sheets 0 st).1).trace.countP isDeleteOp ≤
      st.trace.countP isDeleteOp + 1 := by
  cases sheets with
  | nil =>
    simp only [ExportLoop]
    rcases hs : perform o (SinkOp.saveAs fn) st with ⟨st1, e⟩
    have h1 := perform_cdel o _ st (by rfl) st1 _ hs
    cases e <;> dsimp only <;> omega
  | cons sheet rest =>
    simp only [ExportLoop]
    rcases hn : perform o (SinkOp.newSheet sheet.Name) st with ⟨st1, e1⟩
    have h1 := perform_cdel o _ st (by rfl) st1 _ hn
    cases e1 with
    | some e => dsimp only; omega
    | none =>
      dsimp only
      by_cases hc : st1.file.length > 1
      · rw [if_pos (show True ∧ st1.file.length > 1 from ⟨trivial, hc⟩)]
        rcases hdel : perform o (SinkOp.deleteSheet "Sheet1") st1 with ⟨st2, e2⟩
        have h2 := perform_cdel_le o _ st1 st2 _ hdel
        cases e2 with
        | some e => dsimp only; omega
        | none =>
          dsimp only
          rcases hd : exportSheetDef o us sheet st2 with ⟨st3, r⟩
          have h3 := exportSheetDef_cdel o us sheet st2
          rw [hd] at h3
          cases r with
          | ok =>
            have hpos := ExportLoop_cdel_pos o fn us rest 1 st3 (by omega)
            exact le_trans (le_of_eq (hpos.trans h3)) (by omega)
          | err e => exact le_trans (le_of_eq h3) (by omega)
          | hang => exact le_trans (le_of_eq h3) (by omega)
      · rw [if_neg (show ¬ (True ∧ st1.file.length > 1) from fun h => hc h.2)]
        dsimp only
        rcases hd : exportSheetDef o us sheet st1 with ⟨st3, r⟩
        have h3 := exportSheetDef_cdel o us sheet st1
        rw [hd] at h3
        cases r with
        | ok =>
          have hpos := ExportLoop_cdel_pos o fn us rest 1 st3 (by omega)
          exact le_trans (le_of_eq (hpos.trans h3)) (by omega)
        | err e => exact le_trans (le_of_eq h3) (by omega)
        | hang => exact le_trans (le_of_eq h3) (by omega)

theorem exportSheetDef_perfect (us : Bool) (base : String) (rows rest : List Row)
    (st : ExpoState) (h : ∀ x ∈ rows, x.Cells ≠ none) :
    exportSheetDef perfectSink us ⟨base, rows ++ sentinelRow :: rest⟩ st =
      ({ st with
          file := addSheetList st.file (createdRS base rows 1 0)
          trace := st.trace ++
            ((if us then [SinkOp.newStreamWriter base] else []) ++
              (helperOpsRS (if us then rowOpsStr else rowOpsMem)
                (if us then strInitOps else fun _ => []) base rows 1 0 ++
                (if us then [SinkOp.flush (physName base (sufAfterRS rows 1 0))] else [])))
          writes := st.writes ++ writesRS base rows 1 0
          currentSheet := physName base (sufAfterRS rows 1 0)
          streamSheet := if us then some (physName base (sufAfterRS rows 1 0))
            else st.streamSheet },
        ExpoResult.ok) := by
  cases us with
  | false =>
    simp only [exportSheetDef, Bool.false_eq_true, if_false]
    rw [exportUsingMemory_perfect base rows rest st h]
    simp
  | true =>
    simp only [exportSheetDef, if_true]
    rw [exportUsingStreamWriter_perfect base rows rest st h]
    simp

theorem createdRS_noov (base : String) (rows : List Row)
    (h : rows.length ≤ SheetMaxRows) : createdRS base rows 1 0 = [] := by
  rw [createdRS_eq, sufAfterRS_top]
  have h0 : (rows.length - 1) / SheetMaxRows = 0 := by
    simp only [SheetMaxRows] at *; omega
  simp [h0]

theorem Export_two_defs (us : Bool) (fn n1 n2 : String) (rows2 : List Row)
    (h1 : n1 ≠ "Sheet1") (h12 : n2 ≠ n1)
    (hr2 : ∀ x ∈ rows2, x.Cells ≠ none) (hlen : rows2.length ≤ SheetMaxRows) :
    (Export perfectSink fn us [⟨n1, [sentinelRow]⟩, ⟨n2, rows2 ++ [sentinelRow]⟩]).2
        = ExpoResult.ok ∧
    (Export perfectSink fn us [⟨n1, [sentinelRow]⟩, ⟨n2, rows2 ++ [sentinelRow]⟩]).1.file
        = [n1, n2] := by
  unfold Export
  rw [ExportLoop_cons_start perfectSink fn us _ _ rfl rfl]
  have e1 := exportSheetDef_perfect us n1 [] [] (startState n1) (by simp)
  simp only [List.nil_append] at e1
  rw [e1]
  dsimp only
  simp only [createdRS, sufAfterRS, helperOpsRS, writesRS, addSheetList, List.foldl_nil,
    List.append_nil, List.nil_append]
  simp only [ExportLoop, perform, perfectSink, updFile, updStream]
  have hfile1 : (startState n1).file = [n1] := by simp [startState, h1]
  have hmem2 : ¬ n2 ∈ (startState n1).file := by
    rw [hfile1]; simp [h12]
  simp only [hmem2, if_false]
  rw [if_neg (by simp : ¬ ((1 : Nat) = 0 ∧
    ((startState n1).file ++ [n2]).length > 1))]
  dsimp only
  rw [exportSheetDef_perfect us n2 rows2 [] _ hr2]
  simp only [ExportLoop, perform, perfectSink, updFile, updStream]
  constructor
  · trivial
  · simp [createdRS_noov n2 rows2 hlen, addSheetList, hfile1]

/-! ## Document-content extraction, for comparing the two writer variants -/

theorem writesRS_filter_count (base : String) (rows : List Row) (k : Nat) :
    ((writesRS base rows 1 0).filter (fun w => w.suffix == k)).length =
      min SheetMaxRows (rows.length - k * SheetMaxRows) := by
  rw [writesRS_eq_writesM base rows 1 0 (by omega) (by simp only [SheetMaxRows]; omega)]
  have h0 : (0 : Nat) * SheetMaxRows + (1 - 1) = 0 := by omega
  rw [h0]
  have h := writesM_filter_map base k rows 0
  have hl := congrArg List.length h
  rw [List.length_map, List.length_range'] at hl
  rw [hl]
  simp only [SheetMaxRows]
  omega

theorem writesRS_filter_rowIDs (base : String) (rows : List Row) (k : Nat) :
    ((writesRS base rows 1 0).filter (fun w => w.suffix == k)).map (fun w => w.rowID) =
      List.range' 1 (min SheetMaxRows (rows.length - k * SheetMaxRows)) := by
  rw [writesRS_eq_writesM base rows 1 0 (by omega) (by simp only [SheetMaxRows]; omega)]
  have h0 : (0 : Nat) * SheetMaxRows + (1 - 1) = 0 := by omega
  rw [h0, writesM_filter_map base k rows 0]
  have e1 : max 0 (k * SheetMaxRows) - k * SheetMaxRows + 1 = 1 := by
    simp only [SheetMaxRows]; omega
  have e2 : min (0 + rows.length) ((k + 1) * SheetMaxRows) - max 0 (k * SheetMaxRows) =
      min SheetMaxRows (rows.length - k * SheetMaxRows) := by
    simp only [SheetMaxRows]; omega
  rw [e1, e2]

theorem writesM_small (base : String) :
    ∀ (rows : List Row) (m : Nat), m + rows.length ≤ SheetMaxRows →
      ∀ w ∈ writesM base rows m, w.suffix = 0 ∧ w.sheet = base := by
  intro rows
  induction rows with
  | nil => intro m _; simp [writesM]
  | cons row rows ih =>
    intro m hle w hw
    simp only [writesM, List.mem_cons] at hw
    have hm : m / SheetMaxRows = 0 := by
      simp only [List.length_cons] at hle
      simp only [SheetMaxRows] at *
      omega
    rcases hw with rfl | hw
    · exact ⟨hm, by simp [hm, physName]⟩
    · exact ih (m + 1) (by simp only [List.length_cons] at hle; omega) w hw

theorem exportSheetDef_trace_no_newSheet (us : Bool) (base : String) (rows rest : List Row)
    (h : ∀ x ∈ rows, x.Cells ≠ none) (hle : rows.length ≤ SheetMaxRows) :
    ((exportSheetDef perfectSink us ⟨base, rows ++ sentinelRow :: rest⟩
        initState).1.trace).countP isNewSheetOp = 0 := by
  rw [exportSheetDef_perfect us base rows rest initState h]
  cases us with
  | false =>
    simp only [initState, List.nil_append, Bool.false_eq_true, if_false]
    refine List.countP_eq_zero.mpr ?_
    intro op hop
    simp only [List.nil_append, List.append_nil, List.mem_append] at hop
    have := helperOpsRS_mem_noov rowOpsMem (fun _ => []) base
      (fun op => isNewSheetOp op = false)
      (fun s r row op hop => (rowOpsMem_flags s r row op hop).2)
      rows 1 0 (by omega) op hop
    simp [this]
  | true =>
    simp only [initState, List.nil_append, if_true]
    refine List.countP_eq_zero.mpr ?_
    intro op hop
    simp only [List.mem_append, List.mem_cons, List.mem_singleton,
      List.not_mem_nil] at hop
    rcases hop with (rfl | hfalse) | hmem | rfl | hfalse
    · simp [isNewSheetOp]
    · exact hfalse.elim
    · have := helperOpsRS_mem_noov rowOpsStr strInitOps base
        (fun op => isNewSheetOp op = false)
        (fun s r row op hop => (rowOpsStr_flags s r row op hop).2)
        rows 1 0 (by omega) op hmem
      simp [this]
    · simp [isNewSheetOp]
    · exact hfalse.elim

/-- C1: for a producer yielding `N` data rows and then the sentinel, an
export of that sheet definition against a sink that accepts every
operation succeeds and invokes the per-row write exactly `N` times;
the writes carried by physical sheet `k` (the sheet named `physName base k`)
number `min SheetMaxRows (N - k*SheetMaxRows)` — so every overflow sheet
holds `SheetMaxRows` rows except the last, and rows occupy the base sheet
plus `⌈N/SheetMaxRows⌉ - 1` overflow sheets; in particular a producer of
exactly `SheetMaxRows` rows keeps every write on the base sheet and the
export creates no suffixed overflow sheet at all. -/
theorem export_row_distribution (us : Bool) (base : String) (rows rest : List Row)
    (h : ∀ x ∈ rows, x.Cells ≠ none) :
    (exportSheetDef perfectSink us ⟨base, rows ++ sentinelRow :: rest⟩ initState).2 =
        ExpoResult.ok ∧
    ((exportSheetDef perfectSink us ⟨base, rows ++ sentinelRow :: rest⟩
        initState).1.writes).length = rows.length ∧
    (∀ k : Nat,
      (((exportSheetDef perfectSink us ⟨base, rows ++ sentinelRow :: rest⟩
          initState).1.writes).filter (fun w => w.suffix == k)).length =
        min SheetMaxRows (rows.length - k * SheetMaxRows)) ∧
    (∀ w ∈ (exportSheetDef perfectSink us ⟨base, rows ++ sentinelRow :: rest⟩
        initState).1.writes, w.sheet = physName base w.suffix) ∧
    (rows.length = SheetMaxRows →
      (∀ w ∈ (exportSheetDef perfectSink us ⟨base, rows ++ sentinelRow :: rest⟩
          initState).1.writes, w.sheet = base) ∧
      ((exportSheetDef perfectSink us ⟨base, rows ++ sentinelRow :: rest⟩
          initState).1.trace).countP isNewSheetOp = 0) := by
  have hw : (exportSheetDef perfectSink us ⟨base, rows ++ sentinelRow :: rest⟩
      initState).1.writes = writesRS base rows 1 0 := by
    rw [exportSheetDef_perfect us base rows rest initState h]
    simp [initState]
  have hres : (exportSheetDef perfectSink us ⟨base, rows ++ sentinelRow :: rest⟩
      initState).2 = ExpoResult.ok := by
    rw [exportSheetDef_perfect us base rows rest initState h]
  refine ⟨hres, ?_, ?_, ?_, ?_⟩
  · rw [hw, writesRS_length]
  · intro k; rw [hw, writesRS_filter_count]
  · rw [hw]; exact writesRS_sheet base rows 1 0
  · intro hN
    constructor
    · rw [hw, writesRS_eq_writesM base rows 1 0 (by omega)
        (by simp only [SheetMaxRows]; omega)]
      intro w hww
      have h0 : (0 : Nat) * SheetMaxRows + (1 - 1) = 0 := by omega
      rw [h0] at hww
      exact (writesM_small base rows 0 (by omega) w hww).2
    · exact exportSheetDef_trace_no_newSheet us base rows rest h (by omega)

/-- Witness for C1 at a concrete input: one data row, memory variant. -/
theorem export_row_distribution_witness :
    (exportSheetDef perfectSink false ⟨"S", [NewRow ["a"]] ++ sentinelRow :: []⟩
        initState).2 = ExpoResult.ok ∧
    ((exportSheetDef perfectSink false ⟨"S", [NewRow ["a"]] ++ sentinelRow :: []⟩
        initState).1.writes).length = [NewRow ["a"]].length ∧
    (∀ k : Nat,
      (((exportSheetDef perfectSink false ⟨"S", [NewRow ["a"]] ++ sentinelRow :: []⟩
          initState).1.writes).filter (fun w => w.suffix == k)).length =
        min SheetMaxRows ([NewRow ["a"]].length - k * SheetMaxRows)) ∧
    (∀ w ∈ (exportSheetDef perfectSink false ⟨"S", [NewRow ["a"]] ++ sentinelRow :: []⟩
        initState).1.writes, w.sheet = physName "S" w.suffix) ∧
    ([NewRow ["a"]].length = SheetMaxRows →
      (∀ w ∈ (exportSheetDef perfectSink false ⟨"S", [NewRow ["a"]] ++ sentinelRow :: []⟩
          initState).1.writes, w.sheet = "S") ∧
      ((exportSheetDef perfectSink false ⟨"S", [NewRow ["a"]] ++ sentinelRow :: []⟩
          initState).1.trace).countP isNewSheetOp = 0) :=
  export_row_distribution false "S" [NewRow ["a"]] []
    (by intro x hx; simp only [List.mem_singleton] at hx; subst hx; simp [NewRow])

/-- C10: in every successful export of a sheet definition, each invocation
of the per-row write function receives a row index `rowID` with
`1 ≤ rowID ≤ SheetMaxRows`, and within one physical sheet (one overflow
suffix) successive invocations use the consecutive, strictly increasing
row indices `1, 2, …` starting at 1. -/
theorem write_rowID_bounds_consecutive (us : Bool) (base : String) (rows rest : List Row)
    (h : ∀ x ∈ rows, x.Cells ≠ none) :
    (∀ w ∈ (exportSheetDef perfectSink us ⟨base, rows ++ sentinelRow :: rest⟩
        initState).1.writes, 1 ≤ w.rowID ∧ w.rowID ≤ SheetMaxRows) ∧
    (∀ k : Nat,
      (((exportSheetDef perfectSink us ⟨base, rows ++ sentinelRow :: rest⟩
          initState).1.writes).filter (fun w => w.suffix == k)).map (fun w => w.rowID) =
        List.range' 1 (min SheetMaxRows (rows.length - k * SheetMaxRows))) := by
  have hw : (exportSheetDef perfectSink us ⟨base, rows ++ sentinelRow :: rest⟩
      initState).1.writes = writesRS base rows 1 0 := by
    rw [exportSheetDef_perfect us base rows rest initState h]
    simp [initState]
  constructor
  · rw [hw]; exact writesRS_rowID_bounds base rows 1 0 (by omega)
  · intro k; rw [hw]; exact writesRS_filter_rowIDs base rows k

/-- Witness for C10 at a concrete input: two data rows, streaming variant. -/
theorem write_rowID_bounds_consecutive_witness :
    (∀ w ∈ (exportSheetDef perfectSink true
        ⟨"S", [NewRow ["a"], NewRow ["b"]] ++ sentinelRow :: []⟩
        initState).1.writes, 1 ≤ w.rowID ∧ w.rowID ≤ SheetMaxRows) ∧
    (∀ k : Nat,
      (((exportSheetDef perfectSink true
          ⟨"S", [NewRow ["a"], NewRow ["b"]] ++ sentinelRow :: []⟩
          initState).1.writes).filter (fun w => w.suffix == k)).map (fun w => w.rowID) =
        List.range' 1 (min SheetMaxRows ([NewRow ["a"], NewRow ["b"]].length -
          k * SheetMaxRows))) :=
  write_rowID_bounds_consecutive true "S" [NewRow ["a"], NewRow ["b"]] []
    (by intro x hx
        simp only [List.mem_cons, List.not_mem_nil, or_false] at hx
        rcases hx with rfl | rfl <;> simp [NewRow])

/-- Names of the sheets a trace creates, in creation order. -/
def newSheetNames (tr : List SinkOp) : List String :=
  tr.filterMap (fun op => match op with | SinkOp.newSheet n => some n | _ => none)

theorem newSheetNames_eq_nil (l : List SinkOp)
    (h : ∀ op ∈ l, isNewSheetOp op = false) : newSheetNames l = [] := by
  refine List.filterMap_eq_nil_iff.mpr ?_
  intro op hop
  have := h op hop
  cases op <;> first | rfl | exact absurd this (by simp [isNewSheetOp])

theorem helperOpsRS_newSheetNames (rowOps : String → Nat → Row → List SinkOp)
    (initOps : String → List SinkOp) (base : String)
    (hrow : ∀ (s : String) (r : Nat) (row : Row), ∀ op ∈ rowOps s r row,
      isNewSheetOp op = false)
    (hini : ∀ (n : String), ∀ op ∈ initOps n, isNewSheetOp op = false) :
    ∀ (rows : List Row) (rowID suf : Nat),
      newSheetNames (helperOpsRS rowOps initOps base rows rowID suf) =
        createdRS base rows rowID suf := by
  intro rows
  induction rows with
  | nil => intro rowID suf; rfl
  | cons row rows ih =>
    intro rowID suf
    by_cases hov : rowID > SheetMaxRows <;>
      simp only [helperOpsRS, createdRS, hov, if_true, if_false]
    · simp only [newSheetNames, List.filterMap_cons, List.filterMap_append]
      rw [show (List.filterMap (fun op => match op with
          | SinkOp.newSheet n => some n | _ => none)
          (initOps (physName base (suf + 1))) : List String) = [] from
          newSheetNames_eq_nil _ (hini _)]
      rw [show (List.filterMap (fun op => match op with
          | SinkOp.newSheet n => some n | _ => none)
          (rowOps (physName base (suf + 1)) 1 row) : List String) = [] from
          newSheetNames_eq_nil _ (hrow _ _ _)]
      simp only [List.nil_append]
      rw [show (List.filterMap (fun op => match op with
          | SinkOp.newSheet n => some n | _ => none)
          (helperOpsRS rowOps initOps base rows 2 (suf + 1)) : List String) =
          newSheetNames (helperOpsRS rowOps initOps base rows 2 (suf + 1)) from rfl]
      rw [ih 2 (suf + 1)]
    · simp only [newSheetNames, List.filterMap_append]
      rw [show (List.filterMap (fun op => match op with
          | SinkOp.newSheet n => some n | _ => none)
          (rowOps (physName base suf) rowID row) : List String) = [] from
          newSheetNames_eq_nil _ (hrow _ _ _)]
      simp only [List.nil_append]
      exact ih (rowID + 1) suf

theorem newSheetNames_append (a b : List SinkOp) :
    newSheetNames (a ++ b) = newSheetNames a ++ newSheetNames b :=
  List.filterMap_append a b _

theorem exportSheetDef_newSheetNames (us : Bool) (base : String) (rows rest : List Row)
    (h : ∀ x ∈ rows, x.Cells ≠ none) :
    newSheetNames ((exportSheetDef perfectSink us ⟨base, rows ++ sentinelRow :: rest⟩
        initState).1.trace) = createdRS base rows 1 0 := by
  rw [exportSheetDef_perfect us base rows rest initState h]
  cases us with
  | false =>
    simp only [initState, Bool.false_eq_true, if_false, List.nil_append, List.append_nil]
    exact helperOpsRS_newSheetNames rowOpsMem (fun _ => []) base
      (fun s r row op hop => (rowOpsMem_flags s r row op hop).2)
      (fun n op hop => absurd hop (List.not_mem_nil op)) rows 1 0
  | true =>
    simp only [initState, if_true, List.nil_append]
    rw [newSheetNames_append, newSheetNames_append]
    rw [helperOpsRS_newSheetNames rowOpsStr strInitOps base
      (fun s r row op hop => (rowOpsStr_flags s r row op hop).2)
      (fun n op hop => by
        simp only [strInitOps, List.mem_singleton] at hop
        subst hop; rfl) rows 1 0]
    rw [show newSheetNames [SinkOp.newStreamWriter base] = [] from rfl]
    rw [show newSheetNames [SinkOp.flush (physName base (sufAfterRS rows 1 0))] = []
      from rfl]
    simp

/-- C7: overflow sheet naming is deterministic: the sheets the export loop
creates are exactly `{base}_1, {base}_2, …` with suffixes increasing by 1
from 1 (one per overflow, `⌈N/SheetMaxRows⌉ - 1` of them), never reused;
every row-write targets the sheet named after its overflow suffix; after
each overflow the row cursor restarts at 1 (the per-sheet row indices are
`1, 2, …`); and the producer's rows are written unchanged, in pull order,
exactly once each — the producer's state is untouched by overflow. -/
theorem overflow_naming_deterministic (us : Bool) (base : String) (rows rest : List Row)
    (h : ∀ x ∈ rows, x.Cells ≠ none) :
    newSheetNames ((exportSheetDef perfectSink us ⟨base, rows ++ sentinelRow :: rest⟩
        initState).1.trace) =
      (List.range' 1 ((rows.length - 1) / SheetMaxRows)).map (physName base) ∧
    (∀ w ∈ (exportSheetDef perfectSink us ⟨base, rows ++ sentinelRow :: rest⟩
        initState).1.writes, w.sheet = physName base w.suffix) ∧
    (∀ k : Nat,
      (((exportSheetDef perfectSink us ⟨base, rows ++ sentinelRow :: rest⟩
          initState).1.writes).filter (fun w => w.suffix == k)).map (fun w => w.rowID) =
        List.range' 1 (min SheetMaxRows (rows.length - k * SheetMaxRows))) ∧
    ((exportSheetDef perfectSink us ⟨base, rows ++ sentinelRow :: rest⟩
        initState).1.writes).map (fun w => w.row) = rows := by
  have hw : (exportSheetDef perfectSink us ⟨base, rows ++ sentinelRow :: rest⟩
      initState).1.writes = writesRS base rows 1 0 := by
    rw [exportSheetDef_perfect us base rows rest initState h]
    simp [initState]
  refine ⟨?_, ?_, ?_, ?_⟩
  · rw [exportSheetDef_newSheetNames us base rows rest h, createdRS_eq, sufAfterRS_top]
    simp
  · rw [hw]; exact writesRS_sheet base rows 1 0
  · intro k; rw [hw]; exact writesRS_filter_rowIDs base rows k
  · rw [hw]; exact writesRS_map_row base rows 1 0

/-- Witness for C7 at a concrete input: one data row, memory variant. -/
theorem overflow_naming_deterministic_witness :
    newSheetNames ((exportSheetDef perfectSink false
        ⟨"S", [NewRow ["a"]] ++ sentinelRow :: []⟩ initState).1.trace) =
      (List.range' 1 (([NewRow ["a"]].length - 1) / SheetMaxRows)).map (physName "S") ∧
    (∀ w ∈ (exportSheetDef perfectSink false
        ⟨"S", [NewRow ["a"]] ++ sentinelRow :: []⟩ initState).1.writes,
      w.sheet = physName "S" w.suffix) ∧
    (∀ k : Nat,
      (((exportSheetDef perfectSink false
          ⟨"S", [NewRow ["a"]] ++ sentinelRow :: []⟩ initState).1.writes).filter
            (fun w => w.suffix == k)).map (fun w => w.rowID) =
        List.range' 1 (min SheetMaxRows ([NewRow ["a"]].length - k * SheetMaxRows))) ∧
    ((exportSheetDef perfectSink false
        ⟨"S", [NewRow ["a"]] ++ sentinelRow :: []⟩ initState).1.writes).map
      (fun w => w.row) = [NewRow ["a"]] :=
  overflow_naming_deterministic false "S" [NewRow ["a"]] []
    (by intro x hx; simp only [List.mem_singleton] at hx; subst hx; simp [NewRow])

theorem exportSheetDef_sentinel_stops (o : Oracle) (us : Bool) (base : String)
    (rows rest : List Row) (h : ∀ x ∈ rows, x.Cells ≠ none) (st : ExpoState) :
    exportSheetDef o us ⟨base, rows ++ sentinelRow :: rest⟩ st =
      exportSheetDef o us ⟨base, rows ++ [sentinelRow]⟩ st := by
  cases us with
  | false =>
    simp only [exportSheetDef, Bool.false_eq_true, if_false]
    unfold exportUsingMemory exportHelper
    simp only [memInit]
    exact exportHelperLoop_sentinel_stops o memInit (memWrite o) base rows rest 1 0 _ h
  | true =>
    simp only [exportSheetDef, if_true]
    unfold exportUsingStreamWriter exportHelper
    dsimp only
    rcases hinit : strInit o base { st with currentSheet := base } with ⟨stA, eA⟩
    cases eA with
    | some e => rfl
    | none =>
      dsimp only
      rw [exportHelperLoop_sentinel_stops o (strInit o) (strWrite o) base rows rest 1 0
        stA h]

/-- C2 (amended): the end-of-stream sentinel is a Row whose cell slice is
nil (`Cells = none`, Go's `row.Cells == nil`), not merely empty: the first
nil-cells Row terminates production — the export's entire outcome is
independent of anything after it (no further rows are pulled), the
sentinel itself is never written, and exactly the rows pulled before it
are written, in order. -/
theorem sentinel_nil_cells_stops (o : Oracle) (us : Bool) (base : String)
    (rows rest : List Row) (h : ∀ x ∈ rows, x.Cells ≠ none) :
    exportSheetDef o us ⟨base, rows ++ sentinelRow :: rest⟩ initState =
      exportSheetDef o us ⟨base, rows ++ [sentinelRow]⟩ initState ∧
    ((exportSheetDef perfectSink us ⟨base, rows ++ sentinelRow :: rest⟩
        initState).1.writes).map (fun w => w.row) = rows ∧
    ∀ w ∈ (exportSheetDef perfectSink us ⟨base, rows ++ sentinelRow :: rest⟩
        initState).1.writes, w.row.Cells ≠ none := by
  have hw : (exportSheetDef perfectSink us ⟨base, rows ++ sentinelRow :: rest⟩
      initState).1.writes = writesRS base rows 1 0 := by
    rw [exportSheetDef_perfect us base rows rest initState h]
    simp [initState]
  refine ⟨exportSheetDef_sentinel_stops o us base rows rest h initState, ?_, ?_⟩
  · rw [hw]; exact writesRS_map_row base rows 1 0
  · intro w hww
    have hmem : w.row ∈ rows := by
      rw [← writesRS_map_row base rows 1 0]
      rw [hw] at hww
      exact List.mem_map_of_mem _ hww
    exact h w.row hmem

/-- Witness for C2's amended theorem at a concrete input. -/
theorem sentinel_nil_cells_stops_witness :
    exportSheetDef perfectSink false ⟨"S", [NewRow ["a"]] ++ sentinelRow :: [NewRow ["b"]]⟩
        initState =
      exportSheetDef perfectSink false ⟨"S", [NewRow ["a"]] ++ [sentinelRow]⟩ initState ∧
    ((exportSheetDef perfectSink false
        ⟨"S", [NewRow ["a"]] ++ sentinelRow :: [NewRow ["b"]]⟩
        initState).1.writes).map (fun w => w.row) = [NewRow ["a"]] ∧
    ∀ w ∈ (exportSheetDef perfectSink false
        ⟨"S", [NewRow ["a"]] ++ sentinelRow :: [NewRow ["b"]]⟩
        initState).1.writes, w.row.Cells ≠ none :=
  sentinel_nil_cells_stops perfectSink false "S" [NewRow ["a"]] [NewRow ["b"]]
    (by intro x hx; simp only [List.mem_singleton] at hx; subst hx; simp [NewRow])

/-- C2 counterexample: a Row whose cell sequence is empty but present
(`Cells = some []`, the non-nil empty slice `make([]excelize.Cell, 0)`
produces, e.g. `NewRow` with no arguments) is NOT treated as the sentinel:
it is itself passed to the per-row write, and a further row is still
pulled and written afterwards — refuting the claim that the first Row
with an empty cell sequence terminates production unwritten. -/
theorem empty_cells_not_sentinel_counterexample :
    ((exportSheetDef perfectSink false
        ⟨"S", [Row.mk (some []) [] [], NewRow ["a"], sentinelRow]⟩
        initState).1.writes).map (fun w => w.row) =
      [Row.mk (some []) [] [], NewRow ["a"]] := by decide

theorem helperOpsRS_first_newSW (base : String) :
    ∀ (rows : List Row) (rowID suf : Nat), rowID ≤ SheetMaxRows + 1 →
      SheetMaxRows + 1 < rowID + rows.length →
      SinkOp.newStreamWriter (physName base (suf + 1)) ∈
        helperOpsRS rowOpsStr strInitOps base rows rowID suf := by
  intro rows
  induction rows with
  | nil =>
    intro rowID suf h1 h2
    simp only [List.length_nil] at h2
    omega
  | cons row rows ih =>
    intro rowID suf h1 h2
    by_cases hov : rowID > SheetMaxRows <;>
      simp only [helperOpsRS, hov, if_true, if_false]
    · simp [strInitOps]
    · refine List.mem_append_right _ ?_
      exact ih (rowID + 1) suf (by omega) (by simp only [List.length_cons] at h2; omega)

/-- C5: the streaming variant does NOT flush a physical sheet before
initializing the next one.  With more data rows than `SheetMaxRows` the
export succeeds, a stream writer for the first overflow sheet
`{base}_1` is initialized, yet the whole run performs exactly one flush —
and the base sheet is never flushed at all.  This contradicts the
documented requirement that buffered append state be flushed before a new
sheet is initialized; only the last physical sheet's writer is flushed, so
the earlier sheets' streamed rows are lost. -/
theorem overflow_skips_flush (base : String) (rows rest : List Row)
    (h : ∀ x ∈ rows, x.Cells ≠ none) (hbig : rows.length > SheetMaxRows) :
    (exportUsingStreamWriter perfectSink ⟨base, rows ++ sentinelRow :: rest⟩
        initState).2 = ExpoResult.ok ∧
    SinkOp.newStreamWriter (physName base 1) ∈
      (exportUsingStreamWriter perfectSink ⟨base, rows ++ sentinelRow :: rest⟩
        initState).1.trace ∧
    ((exportUsingStreamWriter perfectSink ⟨base, rows ++ sentinelRow :: rest⟩
        initState).1.trace).countP isFlushOp = 1 ∧
    SinkOp.flush base ∉
      (exportUsingStreamWriter perfectSink ⟨base, rows ++ sentinelRow :: rest⟩
        initState).1.trace := by
  rw [exportUsingStreamWriter_perfect base rows rest initState h]
  have hS : 1 ≤ sufAfterRS rows 1 0 := by
    rw [sufAfterRS_top]
    simp only [SheetMaxRows] at *
    omega
  have hflags : ∀ op ∈ helperOpsRS rowOpsStr strInitOps base rows 1 0,
      isAdminOp op = false :=
    helperOpsRS_mem rowOpsStr strInitOps base (fun op => isAdminOp op = false)
      (fun s r row op hop => (rowOpsStr_flags s r row op hop).1)
      (fun n op hop => by
        simp only [strInitOps, List.mem_singleton] at hop; subst hop; rfl)
      (fun n => rfl) rows 1 0
  refine ⟨rfl, ?_, ?_, ?_⟩
  · simp only [initState, List.nil_append, List.mem_cons, List.mem_append]
    right; left
    exact helperOpsRS_first_newSW base rows 1 0 (by omega)
      (by simp only [SheetMaxRows] at *; omega)
  · simp only [initState, List.nil_append, List.countP_cons, List.countP_append]
    have h0 : (helperOpsRS rowOpsStr strInitOps base rows 1 0).countP isFlushOp = 0 :=
      List.countP_eq_zero.mpr (fun op hop => by
        simp [not_admin_not_flush (hflags op hop)])
    simp [h0, isFlushOp]
  · simp only [initState, List.nil_append, List.mem_cons, List.mem_append,
      List.mem_singleton]
    intro hcon
    rcases hcon with hcon | hcon | hcon
    · exact absurd hcon (by simp)
    · have := hflags _ hcon
      simp [isAdminOp] at this
    · rcases hcon with hcon | hcon
      · have : physName base (sufAfterRS rows 1 0) = base := by
          injection hcon.symm
        exact physName_ne_base base _ hS this
      · exact absurd hcon (by simp)

/-- Witness for C5 at a concrete input: `SheetMaxRows + 1` data rows. -/
theorem overflow_skips_flush_witness :
    (exportUsingStreamWriter perfectSink
        ⟨"S", List.replicate (SheetMaxRows + 1) (NewRow ["x"]) ++ sentinelRow :: []⟩
        initState).2 = ExpoResult.ok ∧
    SinkOp.newStreamWriter (physName "S" 1) ∈
      (exportUsingStreamWriter perfectSink
        ⟨"S", List.replicate (SheetMaxRows + 1) (NewRow ["x"]) ++ sentinelRow :: []⟩
        initState).1.trace ∧
    ((exportUsingStreamWriter perfectSink
        ⟨"S", List.replicate (SheetMaxRows + 1) (NewRow ["x"]) ++ sentinelRow :: []⟩
        initState).1.trace).countP isFlushOp = 1 ∧
    SinkOp.flush "S" ∉
      (exportUsingStreamWriter perfectSink
        ⟨"S", List.replicate (SheetMaxRows + 1) (NewRow ["x"]) ++ sentinelRow :: []⟩
        initState).1.trace :=
  overflow_skips_flush "S" (List.replicate (SheetMaxRows + 1) (NewRow ["x"])) []
    (by intro x hx; rw [List.eq_of_mem_replicate hx]; simp [NewRow])
    (by simp only [List.length_replicate]; omega)

/-- C8: in any export run the default placeholder sheet is deleted at most
once; only the first sheet definition's iteration can delete it (from
index 1 on, the delete count never changes); under an accepting sink the
deletion happens exactly when more than one sheet exists after creating
the first user sheet — that is, iff the first definition is not itself
named "Sheet1"; and a first definition whose producer immediately yields
the sentinel still leaves its own empty, non-placeholder sheet in the
final document, the placeholder being removed exactly once. -/
theorem placeholder_deleted_once :
    (∀ (o : Oracle) (fn : String) (us : Bool) (sheets : List SheetData),
      ((Export o fn us sheets).1.trace).countP isDeleteOp ≤ 1) ∧
    (∀ (o : Oracle) (fn : String) (us : Bool) (sheets : List SheetData) (i : Nat)
        (st : ExpoState), i ≠ 0 →
      ((ExportLoop o fn us sheets i st).1.trace).countP isDeleteOp =
        st.trace.countP isDeleteOp) ∧
    (∀ (fn : String) (us : Bool) (d : SheetData) (rest : List SheetData),
      ((Export perfectSink fn us (d :: rest)).1.trace).countP isDeleteOp =
        if d.Name = "Sheet1" then 0 else 1) ∧
    (∀ (us : Bool) (fn n1 n2 : String) (rows2 : List Row),
      n1 ≠ "Sheet1" → n2 ≠ n1 → (∀ x ∈ rows2, x.Cells ≠ none) →
      rows2.length ≤ SheetMaxRows →
      (Export perfectSink fn us
          [⟨n1, [sentinelRow]⟩, ⟨n2, rows2 ++ [sentinelRow]⟩]).2 = ExpoResult.ok ∧
      (Export perfectSink fn us
          [⟨n1, [sentinelRow]⟩, ⟨n2, rows2 ++ [sentinelRow]⟩]).1.file = [n1, n2]) := by
  refine ⟨?_, ?_, ?_, ?_⟩
  · intro o fn us sheets
    unfold Export
    have := ExportLoop_cdel_start o fn us sheets initState
    simpa [initState] using this
  · intro o fn us sheets i st hi
    exact ExportLoop_cdel_pos o fn us sheets i st hi
  · intro fn us d rest
    unfold Export
    rw [ExportLoop_cons_start perfectSink fn us d rest rfl rfl]
    rcases hd : exportSheetDef perfectSink us d (startState d.Name) with ⟨st3, r⟩
    have h3 := exportSheetDef_cdel perfectSink us d (startState d.Name)
    rw [hd] at h3
    have hstart : ((startState d.Name).trace).countP isDeleteOp =
        if d.Name = "Sheet1" then 0 else 1 := by
      by_cases hn : d.Name = "Sheet1" <;>
        simp [startState, hn, isDeleteOp, List.countP_cons]
    cases r with
    | ok =>
      dsimp only
      rw [ExportLoop_cdel_pos perfectSink fn us rest 1 st3 (by omega), h3, hstart]
    | err e => dsimp only; rw [h3, hstart]
    | hang => dsimp only; rw [h3, hstart]
  · intro us fn n1 n2 rows2 h1 h12 hr2 hlen
    exact Export_two_defs us fn n1 n2 rows2 h1 h12 hr2 hlen

/-- Witness for C8's conditional parts at concrete inputs. -/
theorem placeholder_deleted_once_witness :
    (Export perfectSink "f.xlsx" false
        [⟨"A", [sentinelRow]⟩, ⟨"B", ([] : List Row) ++ [sentinelRow]⟩]).2 =
      ExpoResult.ok ∧
    (Export perfectSink "f.xlsx" false
        [⟨"A", [sentinelRow]⟩, ⟨"B", ([] : List Row) ++ [sentinelRow]⟩]).1.file =
      ["A", "B"] :=
  placeholder_deleted_once.2.2.2 false "f.xlsx" "A" "B" []
    (by decide) (by decide) (by simp) (by simp)

theorem chanPulls_from_started (sendData : List Row) :
    ∀ (n : Nat) (buf : List Row),
      chanPulls sendData n ⟨true, buf⟩ =
        (buf.take n ++ List.replicate (n - buf.length) sentinelRow,
          ⟨true, buf.drop n⟩) := by
  intro n
  induction n with
  | zero => intro buf; simp [chanPulls]
  | succ n ih =>
    intro buf
    cases buf with
    | nil => simp [chanPulls, chanPull, ih, List.replicate_succ]
    | cons r rest =>
      simp [chanPulls, chanPull, ih, List.take_succ_cons, List.length_cons,
        Nat.succ_sub_succ]

/-- C9: the pull function `UseRowChan` returns starts its background task
lazily, on the first pull, and at most once per adapter instance: before
any pull the task is not started, after a pull it is, and `n` successive
pulls return exactly the first `n` rows the task sends, in send order
(FIFO, no reordering, no replay), followed by the sentinel `Row{}` on
every pull after the channel is closed. -/
theorem chan_adapter_fifo (sendData : List Row) (n : Nat) :
    (chanPulls sendData n chanInit).1 =
      sendData.take n ++ List.replicate (n - sendData.length) sentinelRow ∧
    chanInit.started = false ∧
    (chanPulls sendData (n + 1) chanInit).2.started = true := by
  refine ⟨?_, rfl, ?_⟩
  · cases n with
    | zero => simp [chanPulls]
    | succ n =>
      cases sendData with
      | nil =>
        simp [chanPulls, chanPull, chanInit, chanPulls_from_started, List.replicate_succ]
      | cons r rest =>
        simp [chanPulls, chanPull, chanInit, chanPulls_from_started, List.take_succ_cons,
          List.length_cons, Nat.succ_sub_succ]
  · cases sendData with
    | nil => simp [chanPulls, chanPull, chanInit, chanPulls_from_started]
    | cons r rest =>
      simp [chanPulls, chanPull, chanInit, chanPulls_from_started]

/-- C3: the code's producer interface has no failure channel.
`RowDataFunc` returns only a `Row` — there is no error to surface — so
with a sink that accepts every operation no export run ever returns an
error, whatever the producers yield (including producers that never yield
the sentinel).  The claimed `ProducerError` abort path does not exist in
`exporter.go`; the package's own test file assumes the error-returning
signature `func() (Row, error)` and does not compile against it. -/
theorem producer_cannot_fail (fn : String) (us : Bool) (sheets : List SheetData) :
    isErrRes (Export perfectSink fn us sheets).2 = false := by
  unfold Export
  exact ExportLoop_perfect_noerr fn us sheets 0 initState

/-- Boolean test: is the first list a prefix of the second? -/
def prefixOfB (sub l : List Char) : Bool :=
  match sub, l with
  | [], _ => true
  | _ :: _, [] => false
  | a :: as, b :: bs => a == b && prefixOfB as bs

/-- Boolean test: does the second list contain the first as a contiguous
segment? -/
def infixOfB (sub : List Char) : List Char → Bool
  | [] => prefixOfB sub []
  | b :: bs => prefixOfB sub (b :: bs) || infixOfB sub bs

/-- Boolean substring test on the underlying character lists. -/
def strContainsSub (s sub : String) : Bool := infixOfB sub.data s.data

/-- C4 (amended): when the sink rejects the streaming write of row `K` of
the base sheet with message `msg`, the export aborts with exactly that
error value — the sink's error is surfaced unchanged, the exporter adds no
sheet-name or row-index context —, the per-row write is invoked for the
failing row but never afterwards (rows beyond `K` are neither pulled nor
written: the result does not depend on `tail` at all), and the document is
never saved. -/
theorem sink_error_aborts_unwrapped (base fn msg : String) (K : Nat)
    (rows tail : List Row) (hr : ∀ x ∈ rows, x.Cells ≠ none)
    (hK1 : 1 ≤ K) (hKcap : K ≤ SheetMaxRows) (hlen : K ≤ rows.length) :
    (Export (rejectRowAt K msg) fn true [⟨base, rows ++ tail⟩]).2 =
        ExpoResult.err msg ∧
    ((Export (rejectRowAt K msg) fn true [⟨base, rows ++ tail⟩]).1.writes).map
        (fun w => w.row) = rows.take K ∧
    ((Export (rejectRowAt K msg) fn true [⟨base, rows ++ tail⟩]).1.trace).countP
        isSaveOp = 0 := by
  rw [Export_reject_eq base fn msg K rows tail hr hK1 hKcap hlen]
  refine ⟨rfl, ?_, ?_⟩
  · exact writesRS_map_row base (rows.take K) 1 0
  · refine List.countP_eq_zero.mpr ?_
    intro op hop
    simp only [List.mem_append, List.mem_cons] at hop
    rcases hop with hop | hop
    · by_cases hb : base = "Sheet1"
      · simp only [hb, if_true, List.mem_singleton] at hop
        subst hop; simp [isSaveOp]
      · simp only [hb, if_false, List.mem_cons, List.mem_singleton,
          List.not_mem_nil, or_false] at hop
        rcases hop with rfl | rfl <;> simp [isSaveOp]
    · rcases hop with rfl | hop
      · simp [isSaveOp]
      · have hadm := helperOpsRS_mem rowOpsStr strInitOps base
          (fun op => isAdminOp op = false)
          (fun s r row op hh => (rowOpsStr_flags s r row op hh).1)
          (fun n op hh => by
            simp only [strInitOps, List.mem_singleton] at hh; subst hh; rfl)
          (fun n => rfl) (rows.take (K - 1)) 1 0 op hop
        simp [not_admin_not_save hadm]

/-- Witness for C4's amended theorem at a concrete input (row 5 fails). -/
theorem sink_error_aborts_unwrapped_witness :
    (Export (rejectRowAt 5 "boom") "f.xlsx" true
        [⟨"Data", List.replicate 5 (NewRow ["x"]) ++ [NewRow ["y"]]⟩]).2 =
        ExpoResult.err "boom" ∧
    ((Export (rejectRowAt 5 "boom") "f.xlsx" true
        [⟨"Data", List.replicate 5 (NewRow ["x"]) ++ [NewRow ["y"]]⟩]).1.writes).map
        (fun w => w.row) = (List.replicate 5 (NewRow ["x"])).take 5 ∧
    ((Export (rejectRowAt 5 "boom") "f.xlsx" true
        [⟨"Data", List.replicate 5 (NewRow ["x"]) ++ [NewRow ["y"]]⟩]).1.trace).countP
        isSaveOp = 0 :=
  sink_error_aborts_unwrapped "Data" "f.xlsx" "boom" 5
    (List.replicate 5 (NewRow ["x"])) [NewRow ["y"]]
    (by intro x hx; rw [List.eq_of_mem_replicate hx]; simp [NewRow])
    (by omega) (by simp only [SheetMaxRows]; omega)
    (by simp)

/-- C4 counterexample: the sink rejects the write of row 5 of sheet
"Data" with the bare message "boom"; the export returns exactly the error
"boom", which contains neither the row index "5" nor the sheet name
"Data" — refuting the claim that the returned error references that row
index and sheet name. -/
theorem sink_error_not_contextualized :
    (Export (rejectRowAt 5 "boom") "f.xlsx" true
        [⟨"Data", List.replicate 5 (NewRow ["x"]) ++ [NewRow ["y"]]⟩]).2 =
        ExpoResult.err "boom" ∧
    strContainsSub "boom" "5" = false ∧
    strContainsSub "boom" "Data" = false := by
  refine ⟨by decide, by decide, by decide⟩
